import Mathlib

/-!
Verification of the moltbook_data scraping core against its specification.

The development shallowly embeds the Python modules `moltbook_data/core.py`
and `moltbook_data/moltbook.py`.  JSON-like runtime values are modelled by
the inductive `Json` (numbers as integers, which covers every numeric field
the program manipulates: comment counts, offsets, status codes).  Fallible
Python code (attribute errors, type errors on ill-shaped data) is modelled
with `Except PyErr`.  Asynchronous control flow is sequentialised: within a
batch the program itself only inspects fetch results after the whole batch
has settled, so per-item processing is a deterministic fold in item order.
-/

/-- A JSON-like Python runtime value (dict, list, str, int, bool, None).
Numbers are modelled as integers; no claim under verification touches
non-integral numerics. -/
inductive Json where
  | null : Json
  | bool (b : Bool) : Json
  | num (n : Int) : Json
  | str (s : String) : Json
  | arr (xs : List Json) : Json
  | obj (kvs : List (String × Json)) : Json
deriving Repr

mutual

/-- Structural (Python `==`) equality test on `Json` values. -/
def Json.beq : Json → Json → Bool
  | .null, .null => true
  | .bool a, .bool b => a == b
  | .num a, .num b => a == b
  | .str a, .str b => a == b
  | .arr a, .arr b => Json.beqArr a b
  | .obj a, .obj b => Json.beqObj a b
  | _, _ => false

/-- Pointwise equality test on JSON arrays. -/
def Json.beqArr : List Json → List Json → Bool
  | [], [] => true
  | a :: as, b :: bs => Json.beq a b && Json.beqArr as bs
  | _, _ => false

/-- Pointwise equality test on JSON object member lists. -/
def Json.beqObj : List (String × Json) → List (String × Json) → Bool
  | [], [] => true
  | (k₁, v₁) :: as, (k₂, v₂) :: bs => k₁ == k₂ && Json.beq v₁ v₂ && Json.beqObj as bs
  | _, _ => false

end

mutual

theorem Json.eq_of_beq : ∀ {a b : Json}, Json.beq a b = true → a = b
  | .null, .null, _ => rfl
  | .bool _, .bool _, h => by simpa [Json.beq] using h
  | .num _, .num _, h => by simpa [Json.beq] using h
  | .str _, .str _, h => by simpa [Json.beq] using h
  | .arr a, .arr b, h => by
      rw [Json.eqArr_of_beqArr (a := a) (b := b) (by simpa [Json.beq] using h)]
  | .obj a, .obj b, h => by
      rw [Json.eqObj_of_beqObj (a := a) (b := b) (by simpa [Json.beq] using h)]

theorem Json.eqArr_of_beqArr : ∀ {a b : List Json}, Json.beqArr a b = true → a = b
  | [], [], _ => rfl
  | _ :: _, _ :: _, h => by
      have h' := h
      simp only [Json.beqArr, Bool.and_eq_true] at h'
      rw [Json.eq_of_beq h'.1, Json.eqArr_of_beqArr h'.2]

theorem Json.eqObj_of_beqObj : ∀ {a b : List (String × Json)}, Json.beqObj a b = true → a = b
  | [], [], _ => rfl
  | (_, _) :: _, (_, _) :: _, h => by
      have h' := h
      simp only [Json.beqObj, Bool.and_eq_true, beq_iff_eq] at h'
      rw [h'.1.1, Json.eq_of_beq h'.1.2, Json.eqObj_of_beqObj h'.2]

end

mutual

theorem Json.beq_refl : ∀ (a : Json), Json.beq a a = true
  | .null => rfl
  | .bool _ => by simp [Json.beq]
  | .num _ => by simp [Json.beq]
  | .str _ => by simp [Json.beq]
  | .arr a => by simpa [Json.beq] using Json.beqArr_refl a
  | .obj a => by simpa [Json.beq] using Json.beqObj_refl a

theorem Json.beqArr_refl : ∀ (a : List Json), Json.beqArr a a = true
  | [] => rfl
  | x :: xs => by simp [Json.beqArr, Json.beq_refl x, Json.beqArr_refl xs]

theorem Json.beqObj_refl : ∀ (a : List (String × Json)), Json.beqObj a a = true
  | [] => rfl
  | (_, v) :: xs => by simp [Json.beqObj, Json.beq_refl v, Json.beqObj_refl xs]

end

instance : DecidableEq Json := fun a b =>
  if h : Json.beq a b then isTrue (Json.eq_of_beq h)
  else isFalse (fun he => h (he ▸ Json.beq_refl a))

/-- Python truthiness of a JSON-like value: `None`, `False`, `0`, the empty
string, the empty list and the empty dict are falsy, everything else truthy. -/
def Json.truthy : Json → Bool
  | .null => false
  | .bool b => b
  | .num n => n ≠ 0
  | .str s => s ≠ ""
  | .arr xs => ¬ xs.isEmpty
  | .obj kvs => ¬ kvs.isEmpty

/-- Python exceptions that the embedded fragments can raise. -/
inductive PyErr where
  | typeError : PyErr
  | attributeError : PyErr
  | keyError : PyErr
deriving Repr, DecidableEq

/-- Lookup of a key in a JSON object member list (first binding wins; parsed
Python dicts have unique keys). -/
def Json.lookup (kvs : List (String × Json)) (k : String) : Option Json :=
  (kvs.find? (fun p => p.1 = k)).map (·.2)

/-- Python `d.get(k, default)`: succeeds only on dicts, raising
`AttributeError` on every other receiver. -/
def pyDictGet (j : Json) (k : String) (dflt : Json) : Except PyErr Json :=
  match j with
  | .obj kvs => .ok ((Json.lookup kvs k).getD dflt)
  | _ => .error .attributeError

/-- Python `d.get(k)` on a value known to be a dict: absent keys give `None`. -/
def Json.getOpt (kvs : List (String × Json)) (k : String) : Json :=
  (Json.lookup kvs k).getD .null

/-- Python `a or b`: the first operand when truthy, otherwise the second. -/
def pyOr (a b : Json) : Json := if a.truthy then a else b

/-- Substring containment test, used for the Python `in` operator on
strings. -/
def strContainsSub (haystack needle : String) : Bool :=
  if needle = "" then true else (haystack.splitOn needle).length > 1

/-- Python `key in j` for a string key: key membership for dicts, element
membership for lists, substring containment for strings, `TypeError`
otherwise. -/
def pyContains (k : String) (j : Json) : Except PyErr Bool :=
  match j with
  | .obj kvs => .ok (kvs.any (fun p => p.1 = k))
  | .arr xs => .ok (xs.any (fun x => x = Json.str k))
  | .str s => .ok (strContainsSub s k)
  | _ => .error .typeError

/-- Python `d.items()`: the member list of a dict, `AttributeError` otherwise. -/
def pyItems (j : Json) : Except PyErr (List (String × Json)) :=
  match j with
  | .obj kvs => .ok kvs
  | _ => .error .attributeError

/-- The characters the sanitizer replaces, exactly the character class of the
regular expression in `sanitize_filename` in `core.py`. -/
def forbiddenChars : List Char := ['<', '>', ':', '"', '/', '\\', '|', '?', '*']

/-- One character of the substitution performed by `re.sub` in
`sanitize_filename`: characters of the class map to an underscore, all others
are untouched. -/
def sanitizeChar (c : Char) : Char := if c ∈ forbiddenChars then '_' else c

/-- Embedding of `core.sanitize_filename`: the per-character substitution
applied across the whole string. -/
def sanitize_filename (name : String) : String :=
  String.mk (name.data.map sanitizeChar)

/-- Hashability of a Python value: lists and dicts are unhashable and cannot
be put into a set. -/
def Json.hashable : Json → Bool
  | .arr _ => false
  | .obj _ => false
  | _ => true

/-- One insertion into a Python set, modelled as an insertion-ordered
duplicate-free list: adding a member already present is a no-op. -/
def pySetInsert (s : List Json) (v : Json) : List Json :=
  if v ∈ s then s else s ++ [v]

/-- A Python set built by inserting the elements of a list in order,
deduplicating on ingest. -/
def pySetOfList (xs : List Json) : List Json := xs.foldl pySetInsert []

/-- Python `set(v)`: builds a set out of an iterable, deduplicating.
Iterating a string yields its characters, iterating a dict yields its keys;
non-iterables and unhashable elements raise `TypeError`. -/
def pySet (j : Json) : Except PyErr (List Json) :=
  match j with
  | .arr xs =>
      if xs.all Json.hashable then .ok (pySetOfList xs) else .error .typeError
  | .str s => .ok (pySetOfList (s.data.map (fun c => Json.str c.toString)))
  | .obj kvs => .ok (pySetOfList (kvs.map (fun p => Json.str p.1)))
  | _ => .error .typeError

/-- Escapes of one character inside a serialized JSON string.  The embedding
keeps printable characters verbatim (the `ensure_ascii` re-encoding of
`json.dumps` is immaterial to every claim, which only compare serializer
outputs for equality). -/
def escapeJsonChar (c : Char) : String :=
  if c = '"' then "\\\""
  else if c = '\\' then "\\\\"
  else if c = '\n' then "\\n"
  else if c = '\t' then "\\t"
  else if c = '\r' then "\\r"
  else String.mk [c]

/-- A JSON string literal: quotes around the escaped characters. -/
def quoteJsonString (s : String) : String :=
  "\"" ++ String.join (s.data.map escapeJsonChar) ++ "\""

/-- A run of spaces used for indentation. -/
def jsonPad (n : Nat) : String := String.mk (List.replicate n ' ')

mutual

/-- Embedding of `json.dumps(..., indent=w)` at nesting depth `level`:
containers open a line, indent each member by one more level, and close on a
line of their own at the current level. -/
def Json.dumpsAt (w level : Nat) : Json → String
  | .null => "null"
  | .bool true => "true"
  | .bool false => "false"
  | .num n => toString n
  | .str s => quoteJsonString s
  | .arr [] => "[]"
  | .arr (x :: xs) =>
      "[\n" ++ String.intercalate ",\n" (Json.dumpsList w (level + 1) (x :: xs)) ++
        "\n" ++ jsonPad (w * level) ++ "]"
  | .obj [] => "\x7b\x7d"
  | .obj (kv :: kvs) =>
      "\x7b\n" ++ String.intercalate ",\n" (Json.dumpsKVs w (level + 1) (kv :: kvs)) ++
        "\n" ++ jsonPad (w * level) ++ "\x7d"

/-- Serialized lines of the elements of a JSON array. -/
def Json.dumpsList (w level : Nat) : List Json → List String
  | [] => []
  | x :: xs => (jsonPad (w * level) ++ Json.dumpsAt w level x) :: Json.dumpsList w level xs

/-- Serialized lines of the members of a JSON object. -/
def Json.dumpsKVs (w level : Nat) : List (String × Json) → List String
  | [] => []
  | (k, v) :: kvs =>
      (jsonPad (w * level) ++ quoteJsonString k ++ ": " ++ Json.dumpsAt w level v) ::
        Json.dumpsKVs w level kvs

end

/-- Embedding of `json.dumps(j, indent=w, default=str)` as used throughout
the program (always with `w = 2`). -/
def Json.dumps (w : Nat) (j : Json) : String := Json.dumpsAt w 0 j

/-- Claim C7 exactly as stated: the sanitizer preserves length and an output
character is an underscore precisely when the input character at the same
position belongs to the forbidden class. -/
def claimC7Stated : Prop :=
  ∀ s : String,
    (sanitize_filename s).length = s.length ∧
    ∀ (i : Nat) (c d : Char),
      s.data[i]? = some c → (sanitize_filename s).data[i]? = some d →
      (d = '_' ↔ c ∈ forbiddenChars)

/-- C7, counterexample: on the input string consisting of a single
underscore, the output character is an underscore although the input
character is not in the forbidden class, so the stated equivalence fails. -/
theorem sanitize_filename_underscore_cex : ¬ claimC7Stated := by
  intro h
  have h₂ := ((h "_").2 0 '_' '_' rfl rfl).mp rfl
  simp [forbiddenChars] at h₂

/-- C7, amended: `sanitize_filename` preserves length; an output character is
an underscore iff the input character at that position is in the forbidden
class `<>:"/\|?*` or is itself an underscore; characters outside the
forbidden class pass through unchanged at their positions. -/
theorem sanitize_filename_char_spec (s : String) :
    (sanitize_filename s).length = s.length ∧
    ∀ (i : Nat) (c d : Char),
      s.data[i]? = some c → (sanitize_filename s).data[i]? = some d →
      ((d = '_' ↔ (c ∈ forbiddenChars ∨ c = '_')) ∧ (c ∉ forbiddenChars → d = c)) := by
  constructor
  · show (s.data.map sanitizeChar).length = s.data.length
    exact List.length_map _ _
  · intro i c d hc hd
    have hdata : (sanitize_filename s).data = s.data.map sanitizeChar := rfl
    rw [hdata, List.getElem?_map, hc] at hd
    have hdc : d = sanitizeChar c := by
      have hs : some (sanitizeChar c) = some d := hd
      exact (Option.some.inj hs).symm
    subst hdc
    unfold sanitizeChar
    by_cases hf : c ∈ forbiddenChars
    · simp [hf]
    · simp [hf]

/-- C7 witness: the amended property evaluated on the concrete input `"<"`. -/
theorem sanitize_filename_char_spec_witness :
    (('_' = '_') ↔ ('<' ∈ forbiddenChars ∨ '<' = '_')) ∧ ('<' ∉ forbiddenChars → '_' = '<') :=
  (sanitize_filename_char_spec "<").2 0 '<' '_' rfl (by decide)

/-- Run configuration from `core.ScraperConfig`.  Only the retry budget and
the concurrency/batch knobs participate in verified claims; delays and
timeouts are real-time behaviour outside the embedding. -/
structure ScraperConfig where
  base_url : String := "https://www.moltbook.com/api/v1"
  max_concurrent : Nat := 10
  max_retries : Nat := 3
  user_agent : String := "MoltbookResearch/1.0"

/-- What one HTTP attempt inside `AsyncHttpClient.get` observes: a 2xx
response with a JSON body, a 2xx response whose body fails to parse, a non-2xx
status (for which `raise_for_status` raises `HTTPStatusError`), or a
transport-level `RequestError`. -/
inductive AttemptOutcome where
  | success (doc : Json) : AttemptOutcome
  | badJson : AttemptOutcome
  | httpStatus (code : Nat) : AttemptOutcome
  | transportError : AttemptOutcome
deriving Repr, DecidableEq

/-- Observable outcome of one call to `AsyncHttpClient.get`: the returned
document (or absence), the number of attempts performed — which is exactly
the increment of `request_count`, incremented once at the top of every loop
iteration — and the increment of `not_found_count`. -/
structure GetResult where
  result : Option Json
  attempts : Nat
  notFoundDelta : Nat
deriving Repr, DecidableEq

/-- The retry loop of `AsyncHttpClient.get`, at attempt index `a` with
`fuel` iterations of `range(max_retries + 1)` remaining.  Status 404/405
returns absence immediately and bumps the not-found counter; a 5xx status or
a transport error retries while `a < max_retries`; anything else (other
client errors, unparseable bodies) returns absence immediately. -/
def getAttempts (maxRetries : Nat) (resp : Nat → AttemptOutcome) : Nat → Nat → GetResult
  | _, 0 => ⟨none, 0, 0⟩
  | a, fuel + 1 =>
    match resp a with
    | .success d => ⟨some d, 1, 0⟩
    | .badJson => ⟨none, 1, 0⟩
    | .transportError =>
        if a < maxRetries then
          let r := getAttempts maxRetries resp (a + 1) fuel
          ⟨r.result, r.attempts + 1, r.notFoundDelta⟩
        else ⟨none, 1, 0⟩
    | .httpStatus code =>
        if code = 404 ∨ code = 405 then ⟨none, 1, 1⟩
        else if 500 ≤ code ∧ a < maxRetries then
          let r := getAttempts maxRetries resp (a + 1) fuel
          ⟨r.result, r.attempts + 1, r.notFoundDelta⟩
        else ⟨none, 1, 0⟩

/-- Embedding of `AsyncHttpClient.get`: the retry loop started at attempt 0
with `max_retries + 1` available iterations, the response of the remote
server at each attempt being given by `resp`. -/
def AsyncHttpClient.get (maxRetries : Nat) (resp : Nat → AttemptOutcome) : GetResult :=
  getAttempts maxRetries resp 0 (maxRetries + 1)

/-- An attempt outcome the client treats as transient: a transport-level
error or a 5xx status. -/
def transientLike (o : AttemptOutcome) : Prop :=
  o = .transportError ∨ ∃ c, 500 ≤ c ∧ o = .httpStatus c

/-- When every attempt is transient, the loop consumes its whole budget and
reports one attempt per remaining iteration. -/
theorem getAttempts_transient (mr : Nat) (resp : Nat → AttemptOutcome)
    (h : ∀ a, transientLike (resp a)) :
    ∀ (fuel a : Nat), a + fuel = mr + 1 → 1 ≤ fuel →
      getAttempts mr resp a fuel = ⟨none, fuel, 0⟩ := by
  intro fuel
  induction fuel with
  | zero => intro a _ h1; omega
  | succ f ih =>
    intro a hsum _
    rcases h a with ht | ⟨c, hc, hcs⟩
    · by_cases ha : a < mr
      · have hf : 1 ≤ f := by omega
        simp only [getAttempts, ht, if_pos ha, ih (a + 1) (by omega) hf]
      · have hf : f = 0 := by omega
        simp only [getAttempts, ht, if_neg ha]
        simp [hf]
    · have h45 : ¬(c = 404 ∨ c = 405) := by omega
      by_cases ha : a < mr
      · have hf : 1 ≤ f := by omega
        simp only [getAttempts, hcs, if_neg h45, if_pos (And.intro hc ha),
          ih (a + 1) (by omega) hf]
      · have hnot : ¬(500 ≤ c ∧ a < mr) := fun hx => ha hx.2
        have hf : f = 0 := by omega
        simp only [getAttempts, hcs, if_neg h45, if_neg hnot]
        simp [hf]

/-- C2: for every configuration and response sequence, `AsyncHttpClient.get`
returns absence after exactly 1 attempt on 404/405 (bumping the not-found
counter exactly once); consumes exactly `max_retries + 1` attempts and
returns absence when every response is 5xx or a transport error; succeeds on
attempt 2 for a 500-then-success sequence; and returns absence after exactly
1 attempt on an unparseable 2xx body — the attempt count being the exact
increment of the per-attempt request counter, and the result always being a
value rather than a raised exception. -/
theorem asyncHttpClient_get_retry_spec (mr : Nat) (resp : Nat → AttemptOutcome) (d : Json) :
    ((resp 0 = .httpStatus 404 ∨ resp 0 = .httpStatus 405) →
      AsyncHttpClient.get mr resp = ⟨none, 1, 1⟩) ∧
    ((∀ a, transientLike (resp a)) →
      AsyncHttpClient.get mr resp = ⟨none, mr + 1, 0⟩) ∧
    (1 ≤ mr → resp 0 = .httpStatus 500 → resp 1 = .success d →
      AsyncHttpClient.get mr resp = ⟨some d, 2, 0⟩) ∧
    (resp 0 = .badJson → AsyncHttpClient.get mr resp = ⟨none, 1, 0⟩) := by
  refine ⟨?_, ?_, ?_, ?_⟩
  · rintro (h | h) <;> simp [AsyncHttpClient.get, getAttempts, h]
  · intro h
    exact getAttempts_transient mr resp h (mr + 1) 0 (by omega) (by omega)
  · intro hmr h0 h1
    cases mr with
    | zero => omega
    | succ k =>
      have h45 : ¬((500 : Nat) = 404 ∨ (500 : Nat) = 405) := by omega
      have hcond : (500 : Nat) ≤ 500 ∧ 0 < k + 1 := ⟨le_refl _, Nat.succ_pos k⟩
      simp [AsyncHttpClient.get, getAttempts, h0, h1, if_neg h45, if_pos hcond]
  · intro h
    simp only [AsyncHttpClient.get, getAttempts, h]

/-- C2 witness: the four scenarios at concrete inputs — a 404 response, an
always-500 server with retry budget 2 (three attempts), a 500-then-success
flip, and a malformed body. -/
theorem asyncHttpClient_get_retry_spec_witness :
    AsyncHttpClient.get 3 (fun _ => .httpStatus 404) = ⟨none, 1, 1⟩ ∧
    AsyncHttpClient.get 2 (fun _ => .httpStatus 500) = ⟨none, 3, 0⟩ ∧
    AsyncHttpClient.get 2 (fun n => if n = 0 then .httpStatus 500 else .success (.obj [("ok", .bool true)])) =
      ⟨some (.obj [("ok", .bool true)]), 2, 0⟩ ∧
    AsyncHttpClient.get 3 (fun _ => .badJson) = ⟨none, 1, 0⟩ :=
  ⟨(asyncHttpClient_get_retry_spec 3 (fun _ => .httpStatus 404) .null).1 (Or.inl rfl),
   (asyncHttpClient_get_retry_spec 2 (fun _ => .httpStatus 500) .null).2.1
     (fun _ => Or.inr ⟨500, by omega, rfl⟩),
   (asyncHttpClient_get_retry_spec 2
       (fun n => if n = 0 then .httpStatus 500 else .success (.obj [("ok", .bool true)]))
       (.obj [("ok", .bool true)])).2.2.1 (by omega) rfl rfl,
   (asyncHttpClient_get_retry_spec 3 (fun _ => .badJson) .null).2.2.2 rfl⟩

/-- Python `len(v)`: length of a list, string or dict, `TypeError` otherwise. -/
def pyLen (j : Json) : Except PyErr Nat :=
  match j with
  | .arr xs => .ok xs.length
  | .str s => .ok s.length
  | .obj kvs => .ok kvs.length
  | _ => .error .typeError

/-- Elements produced by iterating a Python value (`list.extend`, `for`):
lists yield their elements, strings their characters, dicts their keys;
anything else raises `TypeError`. -/
def pyIterElems (j : Json) : Except PyErr (List Json) :=
  match j with
  | .arr xs => .ok xs
  | .str s => .ok (s.data.map (fun c => Json.str c.toString))
  | .obj kvs => .ok (kvs.map (fun p => Json.str p.1))
  | _ => .error .typeError

/-- Python `a + b` on JSON-like values: numeric addition, string or list
concatenation; mixed operand kinds raise `TypeError`. -/
def pyAdd (a b : Json) : Except PyErr Json :=
  match a, b with
  | .num m, .num n => .ok (.num (m + n))
  | .str s, .str t => .ok (.str (s ++ t))
  | .arr xs, .arr ys => .ok (.arr (xs ++ ys))
  | _, _ => .error .typeError

/-- Observable outcome of `paginate`: the accumulated items and the offset
parameter of each page request that was issued, in order. -/
structure PaginateResult where
  all_items : List Json
  offsets : List Json
deriving Repr

/-- The `while True` loop of `core.paginate`.  `fetch` gives the response of
the `n`-th page request (`none` when the client returned absence after its
own retries); `offset` is the current offset parameter; `acc` the items
accumulated so far; `offs` the offsets requested so far.  A `none` result
means the fuel ran out before the loop hit one of its own stop conditions. -/
def paginateLoop (fetch : Nat → Option Json) (itemsKey : String) :
    Nat → Nat → Json → List Json → List Json → Except PyErr (Option PaginateResult)
  | 0, _, _, _, _ => .ok none
  | fuel + 1, n, offset, acc, offs =>
    match fetch n with
    | none => .ok (some ⟨acc, offs ++ [offset]⟩)
    | some data =>
      if ¬ data.truthy then .ok (some ⟨acc, offs ++ [offset]⟩)
      else do
        let flag ← pyDictGet data "success" .null
        if ¬ flag.truthy then pure (some ⟨acc, offs ++ [offset]⟩)
        else do
          let itemsJ ← pyDictGet data itemsKey (.arr [])
          if ¬ itemsJ.truthy then pure (some ⟨acc, offs ++ [offset]⟩)
          else do
            let elems ← pyIterElems itemsJ
            let hasMore ← pyDictGet data "has_more" (.bool false)
            if ¬ hasMore.truthy then pure (some ⟨acc ++ elems, offs ++ [offset]⟩)
            else do
              let itemsLen ← pyLen itemsJ
              let dfltOff ← pyAdd offset (.num itemsLen)
              let nextOff ← pyDictGet data "next_offset" dfltOff
              paginateLoop fetch itemsKey fuel (n + 1) nextOff (acc ++ elems) (offs ++ [offset])

/-- Embedding of `core.paginate`: the loop started at offset 0 with empty
accumulators. -/
def paginate (fetch : Nat → Option Json) (itemsKey : String) (fuel : Nat) :
    Except PyErr (Option PaginateResult) :=
  paginateLoop fetch itemsKey fuel 0 (.num 0) [] []

/-- Reduction of the monadic bind on a succeeded `Except` computation. -/
theorem exceptOkBind {ε : Type} {α β : Type} (a : α) (f : α → Except ε β) :
    ((Except.ok a : Except ε α) >>= f) = f a := rfl

/-- Reduction of `pure` in the `Except` monad. -/
theorem exceptPureEq {ε : Type} {α : Type} (a : α) :
    (pure a : Except ε α) = Except.ok a := rfl

/-- Feed of two well-formed pages, of sizes 2 and 1, with `has_more` true
then false and a declared next offset. -/
def twoPageFeed : Nat → Option Json := fun n =>
  if n = 0 then
    some (.obj [("success", .bool true), ("items", .arr [.num 1, .num 2]),
                ("has_more", .bool true), ("next_offset", .num 2)])
  else if n = 1 then
    some (.obj [("success", .bool true), ("items", .arr [.num 3]),
                ("has_more", .bool false)])
  else none

/-- Feed whose first page is empty with `has_more` false. -/
def emptyPageFeed : Nat → Option Json := fun _ =>
  some (.obj [("success", .bool true), ("items", .arr []), ("has_more", .bool false)])

/-- Feed whose pages claim `has_more` but carry no items. -/
def emptyMorePageFeed : Nat → Option Json := fun _ =>
  some (.obj [("success", .bool true), ("items", .arr []), ("has_more", .bool true)])

/-- C5: the paginator accumulates page item lists in page order and stops
exactly at the documented conditions — absent response, falsy success flag,
empty page, or falsy `has_more` (this last after appending the current
page) — otherwise advancing the offset to the declared `next_offset`, or to
`offset + len(items)` when absent, and continuing; witnessed additionally on
the three concrete scenarios (sizes 2 then 1 giving three items in order,
an empty first page giving zero items, and a page with `has_more` true but
no items stopping immediately after one request). -/
theorem paginate_stop_and_advance_spec (fetch : Nat → Option Json) (key : String)
    (fuel n : Nat) (off : Int) (acc offs : List Json) (kvs : List (String × Json))
    (xs : List Json) :
    (fetch n = none →
      paginateLoop fetch key (fuel + 1) n (.num off) acc offs =
        .ok (some ⟨acc, offs ++ [.num off]⟩)) ∧
    (fetch n = some (.obj kvs) → (Json.obj kvs).truthy →
      (Json.getOpt kvs "success").truthy = false →
      paginateLoop fetch key (fuel + 1) n (.num off) acc offs =
        .ok (some ⟨acc, offs ++ [.num off]⟩)) ∧
    (fetch n = some (.obj kvs) → (Json.getOpt kvs "success").truthy = true →
      Json.lookup kvs key = some (.arr []) →
      paginateLoop fetch key (fuel + 1) n (.num off) acc offs =
        .ok (some ⟨acc, offs ++ [.num off]⟩)) ∧
    (fetch n = some (.obj kvs) → (Json.getOpt kvs "success").truthy = true →
      Json.lookup kvs key = some (.arr xs) → xs ≠ [] →
      ((Json.lookup kvs "has_more").getD (.bool false)).truthy = false →
      paginateLoop fetch key (fuel + 1) n (.num off) acc offs =
        .ok (some ⟨acc ++ xs, offs ++ [.num off]⟩)) ∧
    (fetch n = some (.obj kvs) → (Json.getOpt kvs "success").truthy = true →
      Json.lookup kvs key = some (.arr xs) → xs ≠ [] →
      ((Json.lookup kvs "has_more").getD (.bool false)).truthy = true →
      paginateLoop fetch key (fuel + 1) n (.num off) acc offs =
        paginateLoop fetch key fuel (n + 1)
          ((Json.lookup kvs "next_offset").getD (.num (off + xs.length)))
          (acc ++ xs) (offs ++ [.num off])) ∧
    (paginate twoPageFeed "items" 5 =
      .ok (some ⟨[.num 1, .num 2, .num 3], [.num 0, .num 2]⟩)) ∧
    (paginate emptyPageFeed "items" 5 = .ok (some ⟨[], [.num 0]⟩)) ∧
    (paginate emptyMorePageFeed "items" 5 = .ok (some ⟨[], [.num 0]⟩)) := by
  refine ⟨?_, ?_, ?_, ?_, ?_, rfl, rfl, rfl⟩
  · intro h
    simp [paginateLoop, h]
  · intro h htr hflag
    have : pyDictGet (Json.obj kvs) "success" .null = .ok (Json.getOpt kvs "success") := rfl
    simp [paginateLoop, h, htr, this, hflag, exceptOkBind, exceptPureEq]
  · intro h hflag hitems
    have hget : pyDictGet (Json.obj kvs) key (.arr []) = .ok (Json.arr []) := by
      simp [pyDictGet, hitems]
    have htr : (Json.obj kvs).truthy := by
      rcases kvs with _ | ⟨p, rest⟩
      · simp [Json.lookup] at hitems
      · simp [Json.truthy]
    have hsucc : pyDictGet (Json.obj kvs) "success" .null = .ok (Json.getOpt kvs "success") := rfl
    simp [paginateLoop, h, htr, hsucc, hflag, hget, exceptOkBind, exceptPureEq, Json.truthy]
  · intro h hflag hitems hne hmore
    have hget : pyDictGet (Json.obj kvs) key (.arr []) = .ok (Json.arr xs) := by
      simp [pyDictGet, hitems]
    have htr : (Json.obj kvs).truthy := by
      rcases kvs with _ | ⟨p, rest⟩
      · simp [Json.lookup] at hitems
      · simp [Json.truthy]
    have hsucc : pyDictGet (Json.obj kvs) "success" .null = .ok (Json.getOpt kvs "success") := rfl
    have hmget : pyDictGet (Json.obj kvs) "has_more" (.bool false) =
        .ok ((Json.lookup kvs "has_more").getD (.bool false)) := rfl
    have hxs : (Json.arr xs).truthy := by simpa [Json.truthy, List.isEmpty_iff] using hne
    simp [paginateLoop, h, htr, hsucc, hflag, hget, hxs, hmget, hmore, exceptOkBind, exceptPureEq,
      pyIterElems]
  · intro h hflag hitems hne hmore
    have hget : pyDictGet (Json.obj kvs) key (.arr []) = .ok (Json.arr xs) := by
      simp [pyDictGet, hitems]
    have htr : (Json.obj kvs).truthy := by
      rcases kvs with _ | ⟨p, rest⟩
      · simp [Json.lookup] at hitems
      · simp [Json.truthy]
    have hsucc : pyDictGet (Json.obj kvs) "success" .null = .ok (Json.getOpt kvs "success") := rfl
    have hmget : pyDictGet (Json.obj kvs) "has_more" (.bool false) =
        .ok ((Json.lookup kvs "has_more").getD (.bool false)) := rfl
    have hxs : (Json.arr xs).truthy := by simpa [Json.truthy, List.isEmpty_iff] using hne
    have hoget : pyDictGet (Json.obj kvs) "next_offset" (.num (off + xs.length)) =
        .ok ((Json.lookup kvs "next_offset").getD (.num (off + xs.length))) := rfl
    simp [paginateLoop, h, htr, hsucc, hflag, hget, hxs, hmget, hmore, hoget, exceptOkBind, exceptPureEq,
      pyIterElems, pyLen, pyAdd]

/-- C5 witness: the stop conditions applied at concrete inputs — the
two-page feed exhausts at its third item, and an absent response stops an
arbitrary crafted call at once. -/
theorem paginate_stop_and_advance_spec_witness :
    paginateLoop (fun _ => none) "items" 3 0 (.num 0) [] [] =
      .ok (some ⟨[], [.num 0]⟩) ∧
    paginate twoPageFeed "items" 5 =
      .ok (some ⟨[.num 1, .num 2, .num 3], [.num 0, .num 2]⟩) :=
  ⟨(paginate_stop_and_advance_spec (fun _ => none) "items" 2 0 0 [] [] [] []).1 rfl,
   (paginate_stop_and_advance_spec (fun _ => none) "items" 2 0 0 [] [] [] []).2.2.2.2.2.1⟩

/-- Embedding of `core.DownloadState`.  Python sets are insertion-ordered
duplicate-free lists of hashable JSON values; `extra` and `last_checkpoint`
hold whatever JSON-like value the program assigned, starting from `{}` and
the empty string. -/
structure DownloadState where
  phases : List (String × List Json)
  discovered : List (String × List Json)
  last_checkpoint : Json
  extra : Json
deriving DecidableEq, Repr

/-- A freshly constructed `DownloadState()`. -/
def DownloadState.empty : DownloadState := ⟨[], [], .str "", .obj []⟩

/-- Python `m.setdefault(k, set()).add(v)` on an insertion-ordered dict of
sets: adds to the set at the key when present, else appends a new singleton
binding. -/
def assocSetAdd (m : List (String × List Json)) (k : String) (v : Json) :
    List (String × List Json) :=
  match m with
  | [] => [(k, [v])]
  | (k₁, s) :: rest =>
      if k₁ = k then (k₁, pySetInsert s v) :: rest else (k₁, s) :: assocSetAdd rest k v

/-- Lookup in an insertion-ordered dict of sets. -/
def assocFind (m : List (String × List Json)) (k : String) : Option (List Json) :=
  (m.find? (fun p => p.1 = k)).map (·.2)

/-- Embedding of `DownloadState.mark_done`. -/
def DownloadState.mark_done (st : DownloadState) (phase item : String) : DownloadState :=
  { st with phases := assocSetAdd st.phases phase (.str item) }

/-- Embedding of `DownloadState.get_done`. -/
def DownloadState.get_done (st : DownloadState) (phase : String) : List Json :=
  (assocFind st.phases phase).getD []

/-- Embedding of `DownloadState.add_discovered`; the name argument is a JSON
value because call sites pass whatever truthy value name resolution found. -/
def DownloadState.add_discovered (st : DownloadState) (category : String) (name : Json) :
    DownloadState :=
  { st with discovered := assocSetAdd st.discovered category name }

/-- Embedding of `DownloadState.get_discovered`. -/
def DownloadState.get_discovered (st : DownloadState) (category : String) : List Json :=
  (assocFind st.discovered category).getD []

/-- Embedding of `DownloadState.save`: the JSON document the checkpoint file
holds after saving at wall-clock instant `now` (each set serialized as a
list, `last_checkpoint` replaced by the current timestamp). -/
def DownloadState.save (st : DownloadState) (now : String) : Json :=
  .obj [("phases", .obj (st.phases.map (fun p => (p.1, Json.arr p.2)))),
        ("discovered", .obj (st.discovered.map (fun p => (p.1, Json.arr p.2)))),
        ("last_checkpoint", .str now),
        ("extra", st.extra)]

/-- What `DownloadState.load` finds at the checkpoint path: no file, a file
whose text fails JSON parsing, or a successfully parsed document. -/
inductive CheckpointFile where
  | absent : CheckpointFile
  | unparseable : CheckpointFile
  | parsed (j : Json) : CheckpointFile

/-- The dict comprehension `{k: set(v) for k, v in items}` of the new-format
load path. -/
def loadSets : List (String × Json) → Except PyErr (List (String × List Json))
  | [] => .ok []
  | (k, v) :: rest => do
      let s ← pySet v
      let r ← loadSets rest
      .ok ((k, s) :: r)

/-- Embedding of `DownloadState.load`: empty state for an absent or
unparseable file; otherwise the new nested schema when the `phases` key is
present in the parsed value, else the legacy flat schema upgrade.  Érrors of
the underlying dict/set operations on unexpected shapes propagate, exactly
as the uncaught Python `TypeError`/`AttributeError` would. -/
def DownloadState.load : CheckpointFile → Except PyErr DownloadState
  | .absent => .ok .empty
  | .unparseable => .ok .empty
  | .parsed j => do
      let hasPhases ← pyContains "phases" j
      if hasPhases then do
        let pj ← pyDictGet j "phases" (.obj [])
        let pkvs ← pyItems pj
        let phases ← loadSets pkvs
        let dj ← pyDictGet j "discovered" (.obj [])
        let dkvs ← pyItems dj
        let disc ← loadSets dkvs
        let lc ← pyDictGet j "last_checkpoint" (.str "")
        let ex ← pyDictGet j "extra" (.obj [])
        .ok ⟨phases, disc, lc, ex⟩
      else do
        let postsJ ← pyDictGet j "posts_with_details" (.arr [])
        let posts ← pySet postsJ
        let submoltsJ ← pyDictGet j "submolts_fetched" (.arr [])
        let submolts ← pySet submoltsJ
        let agentsJ ← pyDictGet j "agents_fetched" (.arr [])
        let agents ← pySet agentsJ
        let agentNamesJ ← pyDictGet j "agent_names_discovered" (.arr [])
        let agentNames ← pySet agentNamesJ
        let submoltNamesJ ← pyDictGet j "submolt_names_discovered" (.arr [])
        let submoltNames ← pySet submoltNamesJ
        let lc ← pyDictGet j "last_checkpoint" (.str "")
        let pcc ← pyDictGet j "post_comment_counts" (.obj [])
        .ok ⟨[("posts", posts), ("submolts", submolts), ("agents", agents)],
             [("agent_names", agentNames), ("submolt_names", submoltNames)],
             lc, .obj [("post_comment_counts", pcc)]⟩

/-- Folding `pySetInsert` over fresh, duplicate-free elements appends them
verbatim. -/
theorem foldl_pySetInsert_eq_append :
    ∀ (xs acc : List Json), xs.Nodup → (∀ x ∈ xs, x ∉ acc) →
      xs.foldl pySetInsert acc = acc ++ xs := by
  intro xs
  induction xs with
  | nil => intro acc _ _; simp
  | cons x xs ih =>
    intro acc hnd hdis
    have hx : x ∉ acc := hdis x (by simp)
    have hins : pySetInsert acc x = acc ++ [x] := by simp [pySetInsert, hx]
    have hfresh : ∀ y ∈ xs, y ∉ acc ++ [x] := by
      intro y hy
      simp only [List.mem_append, List.mem_singleton]
      rintro (hacc | rfl)
      · exact hdis y (List.mem_cons_of_mem _ hy) hacc
      · exact (List.nodup_cons.mp hnd).1 hy
    rw [List.foldl_cons, hins, ih (acc ++ [x]) (List.nodup_cons.mp hnd).2 hfresh,
      List.append_assoc, List.singleton_append]

/-- Ingesting a duplicate-free list into a Python set reproduces it
unchanged. -/
theorem pySetOfList_eq_of_nodup (xs : List Json) (h : xs.Nodup) : pySetOfList xs = xs := by
  simpa [pySetOfList] using foldl_pySetInsert_eq_append xs [] h (by simp)

/-- The members of the built set are exactly the members of the ingested
list. -/
theorem pySetOfList_toFinset_aux :
    ∀ (xs acc : List Json), (xs.foldl pySetInsert acc).toFinset = acc.toFinset ∪ xs.toFinset := by
  intro xs
  induction xs with
  | nil => intro acc; simp
  | cons x xs ih =>
    intro acc
    have hins : (pySetInsert acc x).toFinset = insert x acc.toFinset := by
      by_cases hx : x ∈ acc
      · simp [pySetInsert, hx, Finset.insert_eq_self.mpr (List.mem_toFinset.mpr hx)]
      · rw [pySetInsert, if_neg hx, List.toFinset_append, Finset.union_comm, Finset.insert_eq]
        simp
    rw [List.foldl_cons, ih, hins]
    ext y
    simp [or_assoc, or_left_comm]

/-- Set ingest deduplicates: membership-wise the set equals the list. -/
theorem pySetOfList_toFinset (xs : List Json) : (pySetOfList xs).toFinset = xs.toFinset := by
  simpa [pySetOfList] using pySetOfList_toFinset_aux xs []

/-- A built Python set holds no duplicates. -/
theorem pySetOfList_nodup (xs : List Json) : (pySetOfList xs).Nodup := by
  suffices h : ∀ (ys acc : List Json), acc.Nodup → (ys.foldl pySetInsert acc).Nodup by
    exact h xs [] List.nodup_nil
  intro ys
  induction ys with
  | nil => intro acc h; simpa using h
  | cons y ys ih =>
    intro acc hacc
    rw [List.foldl_cons]
    refine ih _ ?_
    by_cases hy : y ∈ acc
    · simpa [pySetInsert, hy] using hacc
    · simp [pySetInsert, hy, List.nodup_append, hacc]

/-- The comprehension of the new-format load path is the identity on the
lists produced by `save` from well-formed (hashable, duplicate-free) sets. -/
theorem loadSets_saved :
    ∀ (l : List (String × List Json)),
      (∀ p ∈ l, (∀ x ∈ p.2, x.hashable = true) ∧ p.2.Nodup) →
      loadSets (l.map (fun p => (p.1, Json.arr p.2))) = .ok l := by
  intro l
  induction l with
  | nil => intro _; rfl
  | cons p rest ih =>
    intro h
    obtain ⟨hhash, hnd⟩ := h p (by simp)
    have hall : p.2.all Json.hashable = true := List.all_eq_true.mpr hhash
    have hset : pySet (Json.arr p.2) = .ok p.2 := by
      simp [pySet, hall, pySetOfList_eq_of_nodup p.2 hnd]
    have hrest : loadSets (rest.map (fun p => (p.1, Json.arr p.2))) = .ok rest :=
      ih (fun q hq => h q (List.mem_cons_of_mem _ hq))
    simp [loadSets, hset, hrest, exceptOkBind]

/-- C3: loading the document written by `save` returns a state identical on
`phases`, `discovered` and `extra` (only `last_checkpoint` is refreshed by
`save`), for every state whose sets are well-formed Python sets (hashable
members, no duplicates) and whose extra mapping is a JSON value; moreover
set ingest on load deduplicates, so a serialized membership list with
duplicates yields the same set as inserting each element once. -/
theorem downloadState_save_load_roundtrip (st : DownloadState) (now : String)
    (hp : ∀ p ∈ st.phases, (∀ x ∈ p.2, x.hashable = true) ∧ p.2.Nodup)
    (hd : ∀ p ∈ st.discovered, (∀ x ∈ p.2, x.hashable = true) ∧ p.2.Nodup) :
    DownloadState.load (.parsed (st.save now)) =
      .ok { st with last_checkpoint := .str now } ∧
    ∀ xs : List Json,
      (pySetOfList xs).toFinset = xs.toFinset ∧ (pySetOfList xs).Nodup := by
  refine ⟨?_, fun xs => ⟨pySetOfList_toFinset xs, pySetOfList_nodup xs⟩⟩
  simp [DownloadState.load, DownloadState.save, pyContains, pyDictGet, pyItems,
    Json.lookup, exceptOkBind, exceptPureEq, loadSets_saved st.phases hp,
    loadSets_saved st.discovered hd]

/-- C3 witness: the round trip evaluated on a concrete populated state. -/
theorem downloadState_save_load_roundtrip_witness :
    DownloadState.load (.parsed (DownloadState.save
        ⟨[("posts", [.str "p1", .str "p2"])], [("agent_names", [.str "alice"])],
         .str "", .obj [("post_comment_counts", .obj [("p1", .num 5)])]⟩ "t1")) =
      .ok ⟨[("posts", [.str "p1", .str "p2"])], [("agent_names", [.str "alice"])],
           .str "t1", .obj [("post_comment_counts", .obj [("p1", .num 5)])]⟩ ∧
    ∀ xs : List Json,
      (pySetOfList xs).toFinset = xs.toFinset ∧ (pySetOfList xs).Nodup :=
  downloadState_save_load_roundtrip
    ⟨[("posts", [.str "p1", .str "p2"])], [("agent_names", [.str "alice"])],
     .str "", .obj [("post_comment_counts", .obj [("p1", .num 5)])]⟩ "t1"
    (by decide) (by decide)

/-- When a key is bound in a member list, the key test of the Python `in`
operator succeeds. -/
theorem any_key_of_lookup {kvs : List (String × Json)} {k : String} {v : Json}
    (h : Json.lookup kvs k = some v) : kvs.any (fun p => p.1 = k) = true := by
  induction kvs with
  | nil => simp [Json.lookup] at h
  | cons p rest ih =>
    by_cases hp : p.1 = k
    · simp [hp]
    · rw [Json.lookup, List.find?_cons_of_neg _ (by simpa using hp)] at h
      simp [hp, ih h]

/-- When a key is unbound, the key test of the Python `in` operator fails. -/
theorem any_key_of_lookup_none {kvs : List (String × Json)} {k : String}
    (h : Json.lookup kvs k = none) : kvs.any (fun p => p.1 = k) = false := by
  induction kvs with
  | nil => simp
  | cons p rest ih =>
    by_cases hp : p.1 = k
    · exfalso
      rw [Json.lookup, List.find?_cons_of_pos _ (by simpa using hp)] at h
      simp at h
    · rw [Json.lookup, List.find?_cons_of_neg _ (by simpa using hp)] at h
      simp [hp, ih h]

/-- The Python set built from a serialized membership value: ingest of the
list elements for a JSON array, empty otherwise. -/
def jsonElemsToSet : Json → List Json
  | .arr xs => pySetOfList xs
  | _ => []

/-- The comprehension of the new-format load path on any member list of
well-shaped (array-of-hashables) values. -/
theorem loadSets_of_shapes :
    ∀ (l : List (String × Json)),
      (∀ p ∈ l, ∃ xs : List Json, p.2 = .arr xs ∧ xs.all Json.hashable = true) →
      loadSets l = .ok (l.map (fun p => (p.1, jsonElemsToSet p.2))) := by
  intro l
  induction l with
  | nil => intro _; rfl
  | cons p rest ih =>
    intro h
    obtain ⟨xs, hx, hall⟩ := h p (by simp)
    have hset : pySet p.2 = .ok (jsonElemsToSet p.2) := by
      rw [hx]; simp [pySet, hall, jsonElemsToSet]
    have hrest := ih (fun q hq => h q (List.mem_cons_of_mem _ hq))
    simp [loadSets, hset, hrest, exceptOkBind]

/-- Claim C4 as stated quantifies over every possible checkpoint-file
content; this is refuted at the concrete content `5`, which parses as JSON
but makes `load` raise a `TypeError` (the `in` operator on an int) instead
of returning a state. -/
theorem downloadState_load_nonobject_raises_cex :
    ¬ (∀ f : CheckpointFile, ∃ st, DownloadState.load f = .ok st) := by
  intro h
  obtain ⟨st, hst⟩ := h (.parsed (.num 5))
  have hco : DownloadState.load (.parsed (.num 5)) = .error .typeError := rfl
  rw [hco] at hst
  exact Except.noConfusion hst

/-- C4, amended: `load` returns the empty state for an absent or
JSON-unparseable file (never raising there); and for content that parses to
a JSON object it builds the state from the parsed document — the nested
schema when the distinguishing `phases` key is present, otherwise the
legacy flat schema upgraded field by field — whenever the schema fields
have their expected shapes; parseable contents outside this shape (for
example a bare number) make `load` raise instead. -/
theorem downloadState_load_schema_spec :
    (DownloadState.load .absent = .ok .empty) ∧
    (DownloadState.load .unparseable = .ok .empty) ∧
    (∀ (kvs pkvs dkvs : List (String × Json)),
      Json.lookup kvs "phases" = some (.obj pkvs) →
      (Json.lookup kvs "discovered").getD (.obj []) = .obj dkvs →
      (∀ p ∈ pkvs, ∃ xs : List Json, p.2 = .arr xs ∧ xs.all Json.hashable = true) →
      (∀ p ∈ dkvs, ∃ xs : List Json, p.2 = .arr xs ∧ xs.all Json.hashable = true) →
      DownloadState.load (.parsed (.obj kvs)) =
        .ok ⟨pkvs.map (fun p => (p.1, jsonElemsToSet p.2)),
             dkvs.map (fun p => (p.1, jsonElemsToSet p.2)),
             (Json.lookup kvs "last_checkpoint").getD (.str ""),
             (Json.lookup kvs "extra").getD (.obj [])⟩) ∧
    (∀ (kvs : List (String × Json)) (postsL subL agL anL snL : List Json),
      Json.lookup kvs "phases" = none →
      (Json.lookup kvs "posts_with_details").getD (.arr []) = .arr postsL →
      postsL.all Json.hashable = true →
      (Json.lookup kvs "submolts_fetched").getD (.arr []) = .arr subL →
      subL.all Json.hashable = true →
      (Json.lookup kvs "agents_fetched").getD (.arr []) = .arr agL →
      agL.all Json.hashable = true →
      (Json.lookup kvs "agent_names_discovered").getD (.arr []) = .arr anL →
      anL.all Json.hashable = true →
      (Json.lookup kvs "submolt_names_discovered").getD (.arr []) = .arr snL →
      snL.all Json.hashable = true →
      DownloadState.load (.parsed (.obj kvs)) =
        .ok ⟨[("posts", pySetOfList postsL), ("submolts", pySetOfList subL),
              ("agents", pySetOfList agL)],
             [("agent_names", pySetOfList anL), ("submolt_names", pySetOfList snL)],
             (Json.lookup kvs "last_checkpoint").getD (.str ""),
             .obj [("post_comment_counts",
                    (Json.lookup kvs "post_comment_counts").getD (.obj []))]⟩) := by
  refine ⟨rfl, rfl, ?_, ?_⟩
  · intro kvs pkvs dkvs hp hdisc hps hds
    have hany := any_key_of_lookup hp
    have hpget : pyDictGet (.obj kvs) "phases" (.obj []) = .ok (.obj pkvs) := by
      simp [pyDictGet, hp]
    have hdget : pyDictGet (.obj kvs) "discovered" (.obj []) = .ok (.obj dkvs) := by
      simp [pyDictGet, hdisc]
    have hlget : pyDictGet (.obj kvs) "last_checkpoint" (.str "") =
        .ok ((Json.lookup kvs "last_checkpoint").getD (.str "")) := rfl
    have heget : pyDictGet (.obj kvs) "extra" (.obj []) =
        .ok ((Json.lookup kvs "extra").getD (.obj [])) := rfl
    simp [DownloadState.load, pyContains, hany, hpget, hdget, hlget, heget, pyItems,
      loadSets_of_shapes pkvs hps, loadSets_of_shapes dkvs hds, exceptOkBind, exceptPureEq]
  · intro kvs postsL subL agL anL snL hnone h1 a1 h2 a2 h3 a3 h4 a4 h5 a5
    have hany := any_key_of_lookup_none hnone
    have g1 : pyDictGet (.obj kvs) "posts_with_details" (.arr []) = .ok (.arr postsL) := by
      simp [pyDictGet, h1]
    have g2 : pyDictGet (.obj kvs) "submolts_fetched" (.arr []) = .ok (.arr subL) := by
      simp [pyDictGet, h2]
    have g3 : pyDictGet (.obj kvs) "agents_fetched" (.arr []) = .ok (.arr agL) := by
      simp [pyDictGet, h3]
    have g4 : pyDictGet (.obj kvs) "agent_names_discovered" (.arr []) = .ok (.arr anL) := by
      simp [pyDictGet, h4]
    have g5 : pyDictGet (.obj kvs) "submolt_names_discovered" (.arr []) = .ok (.arr snL) := by
      simp [pyDictGet, h5]
    have hlget : pyDictGet (.obj kvs) "last_checkpoint" (.str "") =
        .ok ((Json.lookup kvs "last_checkpoint").getD (.str "")) := rfl
    have hcget : pyDictGet (.obj kvs) "post_comment_counts" (.obj []) =
        .ok ((Json.lookup kvs "post_comment_counts").getD (.obj [])) := rfl
    have b1 := List.all_eq_true.mp a1
    have b2 := List.all_eq_true.mp a2
    have b3 := List.all_eq_true.mp a3
    have b4 := List.all_eq_true.mp a4
    have b5 := List.all_eq_true.mp a5
    simp only [DownloadState.load, pyContains, hany, g1, g2, g3, g4, g5, hlget, hcget,
      pySet, exceptOkBind, exceptPureEq, Bool.false_eq_true, if_false]
    rw [if_pos a1, exceptOkBind, if_pos a2, exceptOkBind, if_pos a3, exceptOkBind,
      if_pos a4, exceptOkBind, if_pos a5, exceptOkBind]

/-- C4 witness: the amended schema construction at two concrete documents —
one new-format object and one legacy flat object. -/
theorem downloadState_load_schema_spec_witness :
    DownloadState.load (.parsed (.obj [("phases", .obj [("posts", .arr [.str "a", .str "a"])])])) =
      .ok ⟨[("posts", [.str "a"])], [], .str "", .obj []⟩ ∧
    DownloadState.load (.parsed (.obj [("posts_with_details", .arr [.str "p1"]),
                                       ("last_checkpoint", .str "t0"),
                                       ("post_comment_counts", .obj [("p1", .num 5)])])) =
      .ok ⟨[("posts", [.str "p1"]), ("submolts", []), ("agents", [])],
           [("agent_names", []), ("submolt_names", [])],
           .str "t0", .obj [("post_comment_counts", .obj [("p1", .num 5)])]⟩ :=
  ⟨downloadState_load_schema_spec.2.2.1
     [("phases", .obj [("posts", .arr [.str "a", .str "a"])])]
     [("posts", .arr [.str "a", .str "a"])] [] rfl rfl
     (by rintro p hp
         simp only [List.mem_singleton] at hp
         subst hp
         exact ⟨[.str "a", .str "a"], rfl, rfl⟩)
     (by intro p hp; simp at hp),
   downloadState_load_schema_spec.2.2.2
     [("posts_with_details", .arr [.str "p1"]), ("last_checkpoint", .str "t0"),
      ("post_comment_counts", .obj [("p1", .num 5)])]
     [.str "p1"] [] [] [] [] rfl rfl rfl rfl rfl rfl rfl rfl rfl rfl rfl⟩

/-- Outcome of `job.fetch_fn` for one item once its task has settled: a
raised exception, a clean `None`, or a document. -/
inductive FetchOutcome where
  | exn : FetchOutcome
  | absent : FetchOutcome
  | doc (d : Json) : FetchOutcome

/-- Embedding of `core.BatchJob`.  The fetch function is deterministic per
identifier within one run; the optional callback is a state transformer
(the Python closure mutates the shared `DownloadState`). -/
structure BatchJob where
  items : List String
  fetch : String → FetchOutcome
  save_dir : String
  filename_fn : String → String
  label : String
  state_phase : String
  on_result : Option (String → Json → DownloadState → DownloadState)
  checkpoint_interval : Nat

/-- Running totals of `run_batch`: counters, file writes performed so far
(path and content, in order), and the checkpoint state. -/
structure BatchAcc where
  completed : Nat
  failed : Nat
  writes : List (String × String)
  state : DownloadState

/-- The per-item body of the inner loop of `run_batch`: exceptions and
absences count as failed; a document is serialized with 2-space indentation
and written (atomically, via tmp+rename — modelled as one write) to
`save_dir / filename_fn(item)`, the item is marked done in the checkpoint
phase, the optional callback runs synchronously, and the completed counter
increments. -/
def processItem (job : BatchJob) (acc : BatchAcc) (item : String) : BatchAcc :=
  match job.fetch item with
  | .exn => { acc with failed := acc.failed + 1 }
  | .absent => { acc with failed := acc.failed + 1 }
  | .doc d =>
      let path := job.save_dir ++ "/" ++ job.filename_fn item
      let st₁ := acc.state.mark_done job.state_phase item
      let st₂ := match job.on_result with
                 | some f => f item d st₁
                 | none => st₁
      { completed := acc.completed + 1, failed := acc.failed,
        writes := acc.writes ++ [(path, Json.dumps 2 d)], state := st₂ }

/-- The batch-slicing loop, structurally recursive on a fuel bounding the
number of batches (the list length suffices when `n` is positive). -/
def chunkListGo {α : Type} (n : Nat) : Nat → List α → List (List α)
  | 0, _ => []
  | _, [] => []
  | fuel + 1, x :: xs => ((x :: xs).take n) :: chunkListGo n fuel ((x :: xs).drop n)

/-- Consecutive batches of `n` items (`range(0, len(items), n)` slicing);
the `n = 0` case is unreachable in the program (Python would raise). -/
def chunkList {α : Type} (n : Nat) (l : List α) : List (List α) :=
  chunkListGo n l.length l

/-- Observable outcome of `run_batch`: the returned counters, all file
writes, the final checkpoint state, one trace entry per batch holding the
completed count before and after the batch and whether the periodic
checkpoint save fired, and whether the unconditional final save fired. -/
structure RunBatchResult where
  completed : Nat
  failed : Nat
  writes : List (String × String)
  state : DownloadState
  batchTrace : List (Nat × Nat × Bool)
  finalSave : Bool

/-- The outer batch loop of `run_batch`: each batch folds the per-item body
over its items, then fires the periodic checkpoint exactly when a path is
given and `completed % checkpoint_interval < batch_size`. -/
def runBatches (job : BatchJob) (hasPath : Bool) (batchSize : Nat) :
    List (List String) → BatchAcc → List (Nat × Nat × Bool) → RunBatchResult
  | [], acc, trace => ⟨acc.completed, acc.failed, acc.writes, acc.state, trace, hasPath⟩
  | b :: rest, acc, trace =>
      let acc₂ := b.foldl (processItem job) acc
      let saved := hasPath && decide (acc₂.completed % job.checkpoint_interval < batchSize)
      runBatches job hasPath batchSize rest acc₂
        (trace ++ [(acc.completed, acc₂.completed, saved)])

/-- Embedding of `core.run_batch` with the batch size already resolved
(`batch_size or config.max_concurrent`). -/
def run_batch (job : BatchJob) (st₀ : DownloadState) (hasPath : Bool) (batchSize : Nat) :
    RunBatchResult :=
  runBatches job hasPath batchSize (chunkList batchSize job.items) ⟨0, 0, [], st₀⟩ []

/-- Whether the fetch of an item produces a document. -/
def fetchSucceeds (job : BatchJob) (item : String) : Bool :=
  match job.fetch item with
  | .doc _ => true
  | _ => false

/-- The file write an item contributes: present exactly for document
outcomes. -/
def writeOf (job : BatchJob) (item : String) : Option (String × String) :=
  match job.fetch item with
  | .doc d => some (job.save_dir ++ "/" ++ job.filename_fn item, Json.dumps 2 d)
  | _ => none

/-- The checkpoint-state effect of one item: mark-done then callback for a
document, nothing otherwise. -/
def stateStep (job : BatchJob) (st : DownloadState) (item : String) : DownloadState :=
  match job.fetch item with
  | .doc d =>
      match job.on_result with
      | some f => f item d (st.mark_done job.state_phase item)
      | none => st.mark_done job.state_phase item
  | _ => st

/-- The batch-slicing loop restores the item list on concatenation, given
enough fuel. -/
theorem chunkListGo_flatten {α : Type} (n : Nat) (hn : 0 < n) :
    ∀ (fuel : Nat) (l : List α), l.length ≤ fuel → (chunkListGo n fuel l).flatten = l := by
  intro fuel
  induction fuel with
  | zero =>
    intro l hl
    have hnil : l = [] := List.eq_nil_of_length_eq_zero (Nat.le_zero.mp hl)
    subst hnil
    rfl
  | succ f ih =>
    intro l hl
    cases l with
    | nil => rfl
    | cons x xs =>
      rw [chunkListGo, List.flatten_cons,
        ih ((x :: xs).drop n) (by simp [List.length_drop]; simp at hl; omega),
        List.take_append_drop]

/-- Batch partitioning is a partition: concatenating the batches restores
the item list. -/
theorem chunkList_flatten {α : Type} (n : Nat) (l : List α) (hn : 0 < n) :
    (chunkList n l).flatten = l :=
  chunkListGo_flatten n hn l.length l le_rfl

/-- The batch-slicing loop emits batches of at most `n` items. -/
theorem chunkListGo_length_le {α : Type} (n : Nat) :
    ∀ (fuel : Nat) (l : List α) (b : List α), b ∈ chunkListGo n fuel l → b.length ≤ n := by
  intro fuel
  induction fuel with
  | zero => intro l b hb; simp [chunkListGo] at hb
  | succ f ih =>
    intro l b hb
    cases l with
    | nil => simp [chunkListGo] at hb
    | cons x xs =>
      rw [chunkListGo] at hb
      rcases List.mem_cons.mp hb with rfl | hb
      · simpa using List.length_take_le n (x :: xs)
      · exact ih _ b hb

/-- Every batch holds at most `n` items. -/
theorem chunkList_length_le {α : Type} (n : Nat) (l : List α) (b : List α)
    (h : b ∈ chunkList n l) : b.length ≤ n :=
  chunkListGo_length_le n l.length l b h

/-- The accumulator after the per-item fold, decomposed field by field: the
completed and failed counters count document and non-document outcomes, the
writes are the per-item contributions in item order, and the state is the
fold of the per-item state effect. -/
theorem foldl_processItem_spec (job : BatchJob) :
    ∀ (items : List String) (acc : BatchAcc),
      (items.foldl (processItem job) acc).completed =
        acc.completed + (items.filter (fetchSucceeds job)).length ∧
      (items.foldl (processItem job) acc).failed =
        acc.failed + (items.filter (fun i => ! fetchSucceeds job i)).length ∧
      (items.foldl (processItem job) acc).writes =
        acc.writes ++ items.filterMap (writeOf job) ∧
      (items.foldl (processItem job) acc).state =
        items.foldl (stateStep job) acc.state := by
  intro items
  induction items with
  | nil => intro acc; simp
  | cons i rest ih =>
    intro acc
    obtain ⟨h1, h2, h3, h4⟩ := ih (processItem job acc i)
    rw [List.foldl_cons, List.foldl_cons]
    cases hfi : job.fetch i with
    | exn =>
      have hs : fetchSucceeds job i = false := by simp [fetchSucceeds, hfi]
      have hw : writeOf job i = none := by simp [writeOf, hfi]
      have hst : stateStep job acc.state i = acc.state := by simp [stateStep, hfi]
      have hpi : processItem job acc i = { acc with failed := acc.failed + 1 } := by
        simp [processItem, hfi]
      refine ⟨?_, ?_, ?_, ?_⟩
      · rw [h1, hpi]; simp [hs]
      · rw [h2, hpi]; simp [hs]; omega
      · rw [h3, hpi]; simp [hw]
      · rw [h4, hpi, hst]
    | absent =>
      have hs : fetchSucceeds job i = false := by simp [fetchSucceeds, hfi]
      have hw : writeOf job i = none := by simp [writeOf, hfi]
      have hst : stateStep job acc.state i = acc.state := by simp [stateStep, hfi]
      have hpi : processItem job acc i = { acc with failed := acc.failed + 1 } := by
        simp [processItem, hfi]
      refine ⟨?_, ?_, ?_, ?_⟩
      · rw [h1, hpi]; simp [hs]
      · rw [h2, hpi]; simp [hs]; omega
      · rw [h3, hpi]; simp [hw]
      · rw [h4, hpi, hst]
    | doc d =>
      have hs : fetchSucceeds job i = true := by simp [fetchSucceeds, hfi]
      have hw : writeOf job i =
          some (job.save_dir ++ "/" ++ job.filename_fn i, Json.dumps 2 d) := by
        simp [writeOf, hfi]
      have hpi : processItem job acc i =
          { completed := acc.completed + 1, failed := acc.failed,
            writes := acc.writes ++ [(job.save_dir ++ "/" ++ job.filename_fn i, Json.dumps 2 d)],
            state := stateStep job acc.state i } := by
        cases hcb : job.on_result <;> simp [processItem, hfi, stateStep, hcb]
      refine ⟨?_, ?_, ?_, ?_⟩
      · rw [h1, hpi]; simp [hs]; omega
      · rw [h2, hpi]; simp [hs]
      · rw [h3, hpi]; simp [hw]
      · rw [h4, hpi]

/-- Counters, writes and state of the batch loop agree with the flat fold
over the concatenation of the batches: the batch partitioning only affects
checkpoint timing. -/
theorem runBatches_eq_flat_fold (job : BatchJob) (hasPath : Bool) (batchSize : Nat) :
    ∀ (bs : List (List String)) (acc : BatchAcc) (trace : List (Nat × Nat × Bool)),
      (runBatches job hasPath batchSize bs acc trace).completed =
        (bs.flatten.foldl (processItem job) acc).completed ∧
      (runBatches job hasPath batchSize bs acc trace).failed =
        (bs.flatten.foldl (processItem job) acc).failed ∧
      (runBatches job hasPath batchSize bs acc trace).writes =
        (bs.flatten.foldl (processItem job) acc).writes ∧
      (runBatches job hasPath batchSize bs acc trace).state =
        (bs.flatten.foldl (processItem job) acc).state ∧
      (runBatches job hasPath batchSize bs acc trace).finalSave = hasPath := by
  intro bs
  induction bs with
  | nil => intro acc trace; exact ⟨rfl, rfl, rfl, rfl, rfl⟩
  | cons b rest ih =>
    intro acc trace
    rw [runBatches, List.flatten_cons, List.foldl_append]
    exact ih (b.foldl (processItem job) acc) _

/-- A batch advances the completed counter by at most the number of its
items. -/
theorem foldl_processItem_completed_le (job : BatchJob) (items : List String) (acc : BatchAcc) :
    (items.foldl (processItem job) acc).completed ≤ acc.completed + items.length := by
  have h := (foldl_processItem_spec job items acc).1
  calc (items.foldl (processItem job) acc).completed
      = acc.completed + (items.filter (fetchSucceeds job)).length := h
    _ ≤ acc.completed + items.length := by
        have := List.length_filter_le (fetchSucceeds job) items
        omega

/-- The per-batch checkpoint trace invariant: the saved flag is exactly the
source condition `hasPath ∧ completed % interval < batch_size`, and a batch
advances the completed count by at most the batch size. -/
def traceEntryOk (job : BatchJob) (hasPath : Bool) (batchSize : Nat)
    (e : Nat × Nat × Bool) : Prop :=
  e.2.2 = (hasPath && decide (e.2.1 % job.checkpoint_interval < batchSize)) ∧
  e.1 ≤ e.2.1 ∧ e.2.1 ≤ e.1 + batchSize

/-- A batch never decreases the completed counter. -/
theorem foldl_processItem_completed_ge (job : BatchJob) (items : List String) (acc : BatchAcc) :
    acc.completed ≤ (items.foldl (processItem job) acc).completed := by
  have h := (foldl_processItem_spec job items acc).1
  omega

/-- Every entry of the batch trace satisfies the invariant, provided the
batches are no longer than the batch size. -/
theorem runBatches_trace_spec (job : BatchJob) (hasPath : Bool) (batchSize : Nat) :
    ∀ (bs : List (List String)) (acc : BatchAcc) (trace : List (Nat × Nat × Bool)),
      (∀ b ∈ bs, b.length ≤ batchSize) →
      (∀ e ∈ trace, traceEntryOk job hasPath batchSize e) →
      ∀ e ∈ (runBatches job hasPath batchSize bs acc trace).batchTrace,
        traceEntryOk job hasPath batchSize e := by
  intro bs
  induction bs with
  | nil => intro acc trace _ htrace e he; exact htrace e he
  | cons b rest ih =>
    intro acc trace hlen htrace e he
    rw [runBatches] at he
    refine ih (b.foldl (processItem job) acc) _ (fun c hc => hlen c (by simp [hc])) ?_ e he
    intro e' he'
    rcases List.mem_append.mp he' with h | h
    · exact htrace e' h
    · rcases List.mem_singleton.mp h with rfl
      refine ⟨rfl, foldl_processItem_completed_ge job b acc, ?_⟩
      calc (b.foldl (processItem job) acc).completed
          ≤ acc.completed + b.length := foldl_processItem_completed_le job b acc
        _ ≤ acc.completed + batchSize := by
            have := hlen b (by simp)
            omega

/-- Membership-wise, one Python set insertion is `Finset.insert`. -/
theorem pySetInsert_toFinset (s : List Json) (v : Json) :
    (pySetInsert s v).toFinset = insert v s.toFinset := by
  by_cases hv : v ∈ s
  · simp [pySetInsert, hv, Finset.insert_eq_self.mpr (List.mem_toFinset.mpr hv)]
  · rw [pySetInsert, if_neg hv, List.toFinset_append, Finset.union_comm, Finset.insert_eq]
    simp

/-- Adding to a keyed set then looking the key up sees exactly the
insertion. -/
theorem assocFind_assocSetAdd_self (m : List (String × List Json)) (k : String) (v : Json) :
    assocFind (assocSetAdd m k v) k = some (pySetInsert ((assocFind m k).getD []) v) := by
  induction m with
  | nil => simp [assocSetAdd, assocFind, pySetInsert]
  | cons p rest ih =>
    by_cases hp : p.1 = k
    · cases p with
      | mk k₁ s =>
        simp only at hp
        subst hp
        simp [assocSetAdd, assocFind]
    · cases p with
      | mk k₁ s =>
        simp only at hp
        rw [assocSetAdd, if_neg hp]
        have h₁ : assocFind ((k₁, s) :: assocSetAdd rest k v) k =
            assocFind (assocSetAdd rest k v) k := by
          rw [assocFind, List.find?_cons_of_neg _ (by simp [hp])]
          rfl
        have h₂ : assocFind ((k₁, s) :: rest) k = assocFind rest k := by
          rw [assocFind, List.find?_cons_of_neg _ (by simp [hp])]
          rfl
        rw [h₁, h₂, ih]

/-- The completed-set effect of `mark_done` on its own phase. -/
theorem get_done_mark_done (st : DownloadState) (phase item : String) :
    (st.mark_done phase item).get_done phase = pySetInsert (st.get_done phase) (.str item) := by
  unfold DownloadState.mark_done DownloadState.get_done
  rw [assocFind_assocSetAdd_self]
  rfl

/-- The completed set after folding the per-item state effect: the initial
set extended by exactly the successfully fetched identifiers, whatever the
callback does to the other state components, provided the callback leaves
`phases` alone. -/
theorem get_done_foldl_stateStep (job : BatchJob)
    (hcb : ∀ f, job.on_result = some f → ∀ item d st, (f item d st).phases = st.phases) :
    ∀ (items : List String) (st : DownloadState),
      ((items.foldl (stateStep job) st).get_done job.state_phase).toFinset =
        (st.get_done job.state_phase).toFinset ∪
          ((items.filter (fetchSucceeds job)).map (fun i => Json.str i)).toFinset := by
  intro items
  induction items with
  | nil => intro st; simp
  | cons i rest ih =>
    intro st
    rw [List.foldl_cons]
    cases hfi : job.fetch i with
    | exn =>
      have hs : fetchSucceeds job i = false := by simp [fetchSucceeds, hfi]
      have hst : stateStep job st i = st := by simp [stateStep, hfi]
      simp [hst, hs, ih st]
    | absent =>
      have hs : fetchSucceeds job i = false := by simp [fetchSucceeds, hfi]
      have hst : stateStep job st i = st := by simp [stateStep, hfi]
      simp [hst, hs, ih st]
    | doc d =>
      have hs : fetchSucceeds job i = true := by simp [fetchSucceeds, hfi]
      have hgd : (stateStep job st i).get_done job.state_phase =
          pySetInsert (st.get_done job.state_phase) (.str i) := by
        cases hor : job.on_result with
        | none => simp [stateStep, hfi, hor, get_done_mark_done]
        | some f =>
          have hph := hcb f hor i d (st.mark_done job.state_phase i)
          have : (stateStep job st i).get_done job.state_phase =
              ((st.mark_done job.state_phase i)).get_done job.state_phase := by
            unfold DownloadState.get_done
            rw [stateStep, hfi, hor, hph]
          rw [this, get_done_mark_done]
      rw [ih (stateStep job st i), hgd, pySetInsert_toFinset]
      rw [List.filter_cons_of_pos (by simpa using hs), List.map_cons, List.toFinset_cons]
      rw [Finset.insert_union, Finset.union_insert]

/-- A Boolean filter splits the length of a list. -/
theorem length_filter_bool_split {α : Type} (p : α → Bool) (l : List α) :
    (l.filter p).length + (l.filter (fun a => ! p a)).length = l.length := by
  induction l with
  | nil => simp
  | cons a l ih => cases h : p a <;> simp [h] <;> omega

/-- C1: `run_batch` gives each item exactly one of the three outcomes.  The
completed counter counts exactly the document outcomes, the failed counter
exactly the exception and absence outcomes (so the pair counts every item
exactly once); the writes are exactly one file per document outcome, at
`save_dir / filename_fn(identifier)` with the document serialized by the
2-space-indent serializer, nothing for absences or exceptions; the final
state is the item-ordered fold of mark-done followed by the synchronous
callback over exactly the document outcomes; hence the completed set of the
job phase grows by exactly the successful identifiers (absent and raising
items are not marked done), with processing continuing across all batches. -/
theorem run_batch_item_outcomes (job : BatchJob) (st₀ : DownloadState) (hasPath : Bool)
    (batchSize : Nat) (hbs : 0 < batchSize)
    (hcb : ∀ f, job.on_result = some f → ∀ item d st, (f item d st).phases = st.phases) :
    (run_batch job st₀ hasPath batchSize).completed =
      (job.items.filter (fetchSucceeds job)).length ∧
    (run_batch job st₀ hasPath batchSize).failed =
      (job.items.filter (fun i => ! fetchSucceeds job i)).length ∧
    (run_batch job st₀ hasPath batchSize).completed +
        (run_batch job st₀ hasPath batchSize).failed = job.items.length ∧
    (run_batch job st₀ hasPath batchSize).writes = job.items.filterMap (writeOf job) ∧
    (run_batch job st₀ hasPath batchSize).state = job.items.foldl (stateStep job) st₀ ∧
    ((run_batch job st₀ hasPath batchSize).state.get_done job.state_phase).toFinset =
      (st₀.get_done job.state_phase).toFinset ∪
        ((job.items.filter (fetchSucceeds job)).map (fun i => Json.str i)).toFinset := by
  obtain ⟨f1, f2, f3, f4, _⟩ :=
    runBatches_eq_flat_fold job hasPath batchSize (chunkList batchSize job.items)
      ⟨0, 0, [], st₀⟩ []
  rw [chunkList_flatten batchSize job.items hbs] at f1 f2 f3 f4
  obtain ⟨s1, s2, s3, s4⟩ := foldl_processItem_spec job job.items ⟨0, 0, [], st₀⟩
  have hc : (run_batch job st₀ hasPath batchSize).completed =
      (job.items.filter (fetchSucceeds job)).length := by
    rw [run_batch, f1, s1]
    simp
  have hf : (run_batch job st₀ hasPath batchSize).failed =
      (job.items.filter (fun i => ! fetchSucceeds job i)).length := by
    rw [run_batch, f2, s2]
    simp
  have hst : (run_batch job st₀ hasPath batchSize).state =
      job.items.foldl (stateStep job) st₀ := by
    rw [run_batch, f4, s4]
  refine ⟨hc, hf, ?_, ?_, hst, ?_⟩
  · rw [hc, hf]
    exact length_filter_bool_split (fetchSucceeds job) job.items
  · rw [run_batch, f3, s3]
    simp
  · rw [hst]
    exact get_done_foldl_stateStep job hcb job.items st₀

/-- A three-item job exercising all three per-item outcomes. -/
def mixedJob : BatchJob :=
  { items := ["good", "bad", "err"],
    fetch := fun i =>
      if i = "good" then .doc (.obj [("id", .str "good")])
      else if i = "bad" then .absent
      else .exn,
    save_dir := "data", filename_fn := fun s => s ++ ".json", label := "test",
    state_phase := "test", on_result := none, checkpoint_interval := 100 }

/-- C1 witness: the outcome counts evaluated on the three-item job with one
success, one absence and one exception. -/
theorem run_batch_item_outcomes_witness :
    (run_batch mixedJob .empty false 2).completed +
      (run_batch mixedJob .empty false 2).failed = mixedJob.items.length :=
  (run_batch_item_outcomes mixedJob .empty false 2 (by omega)
    (by intro f hf; exact Option.noConfusion hf)).2.2.1

/-- Whether some multiple of `interval` lies in the half-open span
`(before, after]` of completed counts covered by a batch. -/
def crossedMultiple (before after interval : Nat) : Bool :=
  (List.range (after + 1)).any
    (fun k => decide (before < k * interval) && decide (k * interval ≤ after))

/-- A two-item job whose fetches all return absence, with the default
checkpoint interval of 100. -/
def allAbsentJob : BatchJob :=
  { items := ["a", "b"], fetch := fun _ => .absent, save_dir := "data",
    filename_fn := fun s => s ++ ".json", label := "posts", state_phase := "posts",
    on_result := none, checkpoint_interval := 100 }

/-- C6, counterexample: on a batch that completes zero items, the completed
count crosses no multiple of the interval in its span — under either
half-open reading, the span of completed counts is empty — yet the periodic
checkpoint fires (`0 % 100 < 2`), so the claimed equivalence between
persisting and crossing is false at this concrete run. -/
theorem run_batch_checkpoint_crossing_cex :
    (run_batch allAbsentJob .empty true 2).batchTrace = [(0, 0, true)] ∧
    crossedMultiple 0 0 allAbsentJob.checkpoint_interval = false ∧
    (∀ k : Nat, ¬ (0 < k * allAbsentJob.checkpoint_interval ∧
                   k * allAbsentJob.checkpoint_interval ≤ 0)) := by
  refine ⟨rfl, by decide, ?_⟩
  intro k hk
  omega

/-- When a multiple of the interval is crossed inside a span of at most
`batchSize` completions and the batch size is at most the interval, the
source condition `after % interval < batchSize` holds. -/
theorem crossing_implies_mod_lt {before after interval batchSize : Nat}
    (hspan : after ≤ before + batchSize) (hbi : batchSize ≤ interval)
    (hcross : crossedMultiple before after interval = true) :
    after % interval < batchSize := by
  obtain ⟨k, _, hk⟩ := List.any_eq_true.mp hcross
  simp only [Bool.and_eq_true, decide_eq_true_eq] at hk
  obtain ⟨hk1, hk2⟩ := hk
  rcases Nat.eq_zero_or_pos interval with h0 | hipos
  · subst h0
    simp at hk1
  · have hkq : k ≤ after / interval := (Nat.le_div_iff_mul_le hipos).mpr hk2
    have hM : k * interval ≤ (after / interval) * interval :=
      Nat.mul_le_mul_right _ hkq
    have hM' : k * interval ≤ interval * (after / interval) := by
      calc k * interval ≤ (after / interval) * interval := hM
        _ = interval * (after / interval) := Nat.mul_comm _ _
    have hdm := Nat.div_add_mod after interval
    omega

/-- C6, amended: with a checkpoint path given, `run_batch` persists the
checkpoint after a batch exactly when the completed count after that batch,
reduced modulo `checkpoint_interval`, is below the batch size — a condition
that does hold whenever a multiple of the interval was crossed during the
batch (for batch sizes at most the interval), but that also fires on
batches right after a crossing even when they complete nothing — and it
persists the checkpoint unconditionally once more after the last batch;
with no path given, no save ever fires. -/
theorem run_batch_checkpoint_spec (job : BatchJob) (st₀ : DownloadState) (batchSize : Nat)
    (hbs : 0 < batchSize) :
    (run_batch job st₀ true batchSize).finalSave = true ∧
    (run_batch job st₀ false batchSize).finalSave = false ∧
    (∀ e ∈ (run_batch job st₀ true batchSize).batchTrace,
      e.2.2 = decide (e.2.1 % job.checkpoint_interval < batchSize)) ∧
    (∀ e ∈ (run_batch job st₀ false batchSize).batchTrace, e.2.2 = false) ∧
    (∀ e ∈ (run_batch job st₀ true batchSize).batchTrace,
      batchSize ≤ job.checkpoint_interval →
      crossedMultiple e.1 e.2.1 job.checkpoint_interval = true →
      e.2.2 = true) := by
  have hchunk : ∀ b ∈ chunkList batchSize job.items, b.length ≤ batchSize :=
    fun b hb => chunkList_length_le batchSize job.items b hb
  have htrT := runBatches_trace_spec job true batchSize (chunkList batchSize job.items)
    ⟨0, 0, [], st₀⟩ [] hchunk (by intro e he; cases he)
  have htrF := runBatches_trace_spec job false batchSize (chunkList batchSize job.items)
    ⟨0, 0, [], st₀⟩ [] hchunk (by intro e he; cases he)
  refine ⟨(runBatches_eq_flat_fold job true batchSize _ _ _).2.2.2.2,
          (runBatches_eq_flat_fold job false batchSize _ _ _).2.2.2.2, ?_, ?_, ?_⟩
  · intro e he
    have := (htrT e he).1
    simpa using this
  · intro e he
    have := (htrF e he).1
    simpa using this
  · intro e he hbi hcross
    obtain ⟨hflag, _, hspan⟩ := htrT e he
    have hmod := crossing_implies_mod_lt hspan hbi hcross
    simp [hflag, hmod]

/-- A three-item all-successful job with checkpoint interval 2. -/
def smallIntervalJob : BatchJob :=
  { items := ["a", "b", "c"], fetch := fun _ => .doc (.obj []), save_dir := "data",
    filename_fn := fun s => s ++ ".json", label := "posts", state_phase := "posts",
    on_result := none, checkpoint_interval := 2 }

/-- C6 witness: the amended characterization evaluated on the concrete
three-item job — the final save fires, and the first batch persists because
`2 % 2 = 0 < 2`. -/
theorem run_batch_checkpoint_spec_witness :
    (run_batch smallIntervalJob .empty true 2).finalSave = true ∧
    (0, 2, true).2.2 =
      decide ((0, 2, true).2.1 % smallIntervalJob.checkpoint_interval < 2) :=
  ⟨(run_batch_checkpoint_spec smallIntervalJob .empty 2 (by omega)).1,
   (run_batch_checkpoint_spec smallIntervalJob .empty 2 (by omega)).2.2.1 (0, 2, true)
     (by have h : (run_batch smallIntervalJob .empty true 2).batchTrace =
            [(0, 2, true), (2, 3, true)] := rfl
         rw [h]
         simp)⟩

/-- Embedding of the inner helper `extract_from_author` of
`moltbook.extract_names_from_response`: a truthy dict contributes its `name`,
falling back to `username`; anything else is silently skipped. -/
def extract_from_author (author : Json) (st : DownloadState) : DownloadState :=
  match author with
  | .obj kvs =>
      if ¬ (Json.obj kvs).truthy then st
      else
        let name := pyOr (Json.getOpt kvs "name") (Json.getOpt kvs "username")
        if name.truthy then st.add_discovered "agent_names" name else st
  | _ => st

/-- Embedding of the inner helper `extract_from_submolt`: a truthy dict
contributes its `name`, falling back to `slug`. -/
def extract_from_submolt (submolt : Json) (st : DownloadState) : DownloadState :=
  match submolt with
  | .obj kvs =>
      if ¬ (Json.obj kvs).truthy then st
      else
        let name := pyOr (Json.getOpt kvs "name") (Json.getOpt kvs "slug")
        if name.truthy then st.add_discovered "submolt_names" name else st
  | _ => st

mutual

/-- Embedding of the inner helper `extract_from_comments`: iterates
`comments or []`.  A falsy value iterates nothing; a truthy non-list raises
on the first element (`comment.get` on a character or key for strings and
dicts — folded into the immediate error — or `TypeError` for a non-iterable). -/
def extract_from_comments : Json → DownloadState → Except PyErr DownloadState
  | comments, st =>
    if ¬ comments.truthy then .ok st
    else
      match comments with
      | .arr xs => extractCommentList xs st
      | .str _ => .error .attributeError
      | .obj _ => .error .attributeError
      | _ => .error .typeError

/-- The comment loop body applied along the list of comments. -/
def extractCommentList : List Json → DownloadState → Except PyErr DownloadState
  | [], st => .ok st
  | c :: cs, st => do
      let st₂ ← extractComment c st
      extractCommentList cs st₂

/-- One comment: its author is extracted, then its `replies` field is
traversed recursively; a non-dict comment raises (`comment.get`). -/
def extractComment : Json → DownloadState → Except PyErr DownloadState
  | .obj kvs, st =>
      extractRepliesField kvs (extract_from_author (Json.getOpt kvs "author") st)
  | _, _ => .error .attributeError

/-- Inlined lookup of `comment.get("replies", [])` followed by the recursive
traversal; the default (absent key) traverses nothing. -/
def extractRepliesField : List (String × Json) → DownloadState → Except PyErr DownloadState
  | [], st => .ok st
  | (k, v) :: rest, st =>
      if k = "replies" then extract_from_comments v st else extractRepliesField rest st

end

/-- Embedding of `moltbook.extract_names_from_response`: walks the post
author and community, the comment tree, the agent profile (by its `name`
field only), and the top-level community reference. -/
def extract_names_from_response (data : Json) (st : DownloadState) :
    Except PyErr DownloadState := do
  let post ← pyDictGet data "post" (.obj [])
  let author ← pyDictGet post "author" .null
  let st₁ := extract_from_author author st
  let submolt ← pyDictGet post "submolt" .null
  let st₂ := extract_from_submolt submolt st₁
  let comments ← pyDictGet data "comments" (.arr [])
  let st₃ ← extract_from_comments comments st₂
  let agent ← pyDictGet data "agent" (.obj [])
  let st₄ ←
    if agent.truthy then do
      let name ← pyDictGet agent "name" .null
      pure (if name.truthy then st₃.add_discovered "agent_names" name else st₃)
    else pure st₃
  let submoltTop ← pyDictGet data "submolt" (.obj [])
  pure (extract_from_submolt submoltTop st₄)

/-- A comment tree of tolerable shape: an arbitrary author value (the
extractor guards it), recursively shaped replies, and arbitrary further
fields. -/
inductive CommentTree where
  | mk (author : Json) (replies : List CommentTree) (rest : List (String × Json)) : CommentTree

mutual

/-- The JSON object a tolerably shaped comment denotes. -/
def CommentTree.toJson : CommentTree → Json
  | .mk a rs rest => .obj (("author", a) :: ("replies", .arr (CommentTree.listToJson rs)) :: rest)

/-- The JSON array a list of tolerably shaped comments denotes. -/
def CommentTree.listToJson : List CommentTree → List Json
  | [] => []
  | c :: cs => c.toJson :: CommentTree.listToJson cs

end

/-- The name an author value contributes: for a truthy dict, the truthy
`name`-or-`username` resolution, otherwise nothing. -/
def authorName (a : Json) : Option Json :=
  match a with
  | .obj kvs =>
      if ¬ (Json.obj kvs).truthy then none
      else
        let n := pyOr (Json.getOpt kvs "name") (Json.getOpt kvs "username")
        if n.truthy then some n else none
  | _ => none

/-- The name a community value contributes: for a truthy dict, the truthy
`name`-or-`slug` resolution, otherwise nothing. -/
def groupName (s : Json) : Option Json :=
  match s with
  | .obj kvs =>
      if ¬ (Json.obj kvs).truthy then none
      else
        let n := pyOr (Json.getOpt kvs "name") (Json.getOpt kvs "slug")
        if n.truthy then some n else none
  | _ => none

mutual

/-- The author names a comment tree contributes, in traversal order. -/
def CommentTree.agentNames : CommentTree → List Json
  | .mk a rs _ => (authorName a).toList ++ CommentTree.agentNamesList rs

/-- The author names of a list of comment trees, in order. -/
def CommentTree.agentNamesList : List CommentTree → List Json
  | [] => []
  | c :: cs => c.agentNames ++ CommentTree.agentNamesList cs

end

/-- A response document of tolerable shape: an optional post (author value,
community value, further fields), a comment forest, an optional agent
object, and an optional top-level community value. -/
structure MoltDoc where
  post : Option (Json × Json × List (String × Json))
  comments : List CommentTree
  agent : Option (List (String × Json))
  submolt : Option Json

/-- The JSON object a tolerably shaped response denotes. -/
def MoltDoc.toJson (d : MoltDoc) : Json :=
  .obj ((match d.post with
         | some (a, s, rest) => [("post", Json.obj (("author", a) :: ("submolt", s) :: rest))]
         | none => []) ++
        [("comments", .arr (CommentTree.listToJson d.comments))] ++
        (match d.agent with
         | some akvs => [("agent", .obj akvs)]
         | none => []) ++
        (match d.submolt with
         | some s => [("submolt", s)]
         | none => []))

/-- The agent names the whole document contributes, in traversal order: the
post author, the comment forest, then the agent profile (its `name` field
only, no fallback). -/
def MoltDoc.agentNames (d : MoltDoc) : List Json :=
  (match d.post with
   | some (a, _, _) => (authorName a).toList
   | none => []) ++
  CommentTree.agentNamesList d.comments ++
  (match d.agent with
   | some akvs =>
       if (Json.obj akvs).truthy then
         (if (Json.getOpt akvs "name").truthy then [Json.getOpt akvs "name"] else [])
       else []
   | none => [])

/-- The community names the whole document contributes, in traversal order. -/
def MoltDoc.submoltNames (d : MoltDoc) : List Json :=
  (match d.post with
   | some (_, s, _) => (groupName s).toList
   | none => []) ++
  (match d.submolt with
   | some s => (groupName s).toList
   | none => [])

/-- A run of `add_discovered` calls over one category, in order. -/
def applyDiscovered (category : String) (ns : List Json) (st : DownloadState) : DownloadState :=
  ns.foldl (fun s n => s.add_discovered category n) st

/-- Adding under one key leaves lookups of other keys untouched. -/
theorem assocFind_assocSetAdd_other (m : List (String × List Json)) (k k' : String)
    (v : Json) (h : k ≠ k') :
    assocFind (assocSetAdd m k v) k' = assocFind m k' := by
  induction m with
  | nil =>
    simp only [assocSetAdd, assocFind]
    rw [List.find?_cons_of_neg _ (by simp [h])]
  | cons p rest ih =>
    cases p with
    | mk k₁ s =>
      by_cases hp : k₁ = k
      · subst hp
        rw [assocSetAdd, if_pos rfl]
        rw [assocFind, List.find?_cons_of_neg _ (by simp [h]), assocFind,
          List.find?_cons_of_neg _ (by simp [h])]
      · rw [assocSetAdd, if_neg hp]
        by_cases hp' : k₁ = k'
        · subst hp'
          rw [assocFind, List.find?_cons_of_pos _ (by simp), assocFind,
            List.find?_cons_of_pos _ (by simp)]
        · rw [assocFind, List.find?_cons_of_neg _ (by simp [hp']), assocFind,
            List.find?_cons_of_neg _ (by simp [hp'])]
          exact ih

/-- The discovered-set effect of `add_discovered` on its own category. -/
theorem get_discovered_add_self (st : DownloadState) (category : String) (n : Json) :
    (st.add_discovered category n).get_discovered category =
      pySetInsert (st.get_discovered category) n := by
  unfold DownloadState.add_discovered DownloadState.get_discovered
  rw [assocFind_assocSetAdd_self]
  rfl

/-- `add_discovered` leaves other categories untouched. -/
theorem get_discovered_add_other (st : DownloadState) (category c' : String) (n : Json)
    (h : category ≠ c') :
    (st.add_discovered category n).get_discovered c' = st.get_discovered c' := by
  unfold DownloadState.add_discovered DownloadState.get_discovered
  rw [assocFind_assocSetAdd_other _ _ _ _ h]

/-- A run of discoveries over one category folds the insertions over that
category. -/
theorem applyDiscovered_get_self (category : String) :
    ∀ (ns : List Json) (st : DownloadState),
      (applyDiscovered category ns st).get_discovered category =
        ns.foldl pySetInsert (st.get_discovered category) := by
  intro ns
  induction ns with
  | nil => intro st; rfl
  | cons n rest ih =>
    intro st
    show (applyDiscovered category rest (st.add_discovered category n)).get_discovered category = _
    rw [ih, get_discovered_add_self, List.foldl_cons]

/-- A run of discoveries over one category does not touch other categories. -/
theorem applyDiscovered_get_other (category c' : String) (h : category ≠ c') :
    ∀ (ns : List Json) (st : DownloadState),
      (applyDiscovered category ns st).get_discovered c' = st.get_discovered c' := by
  intro ns
  induction ns with
  | nil => intro st; rfl
  | cons n rest ih =>
    intro st
    show (applyDiscovered category rest (st.add_discovered category n)).get_discovered c' = _
    rw [ih, get_discovered_add_other _ _ _ _ h]

/-- Discoveries do not touch the phases. -/
theorem applyDiscovered_phases (category : String) :
    ∀ (ns : List Json) (st : DownloadState),
      (applyDiscovered category ns st).phases = st.phases := by
  intro ns
  induction ns with
  | nil => intro st; rfl
  | cons n rest ih =>
    intro st
    show (applyDiscovered category rest (st.add_discovered category n)).phases = _
    rw [ih]
    rfl

/-- Discoveries do not touch the extra mapping. -/
theorem applyDiscovered_extra (category : String) :
    ∀ (ns : List Json) (st : DownloadState),
      (applyDiscovered category ns st).extra = st.extra := by
  intro ns
  induction ns with
  | nil => intro st; rfl
  | cons n rest ih =>
    intro st
    show (applyDiscovered category rest (st.add_discovered category n)).extra = _
    rw [ih]
    rfl

/-- Discovery runs concatenate. -/
theorem applyDiscovered_append (category : String) (xs ys : List Json) (st : DownloadState) :
    applyDiscovered category (xs ++ ys) st =
      applyDiscovered category ys (applyDiscovered category xs st) :=
  List.foldl_append ..

/-- The author helper is the discovery run of the name it resolves. -/
theorem extract_from_author_eq (a : Json) (st : DownloadState) :
    extract_from_author a st = applyDiscovered "agent_names" (authorName a).toList st := by
  cases a with
  | obj kvs =>
    simp only [extract_from_author, authorName]
    by_cases ht : (Json.obj kvs).truthy <;>
      by_cases hn : (pyOr (Json.getOpt kvs "name") (Json.getOpt kvs "username")).truthy <;>
        simp [ht, hn, applyDiscovered]
  | null => rfl
  | bool b => rfl
  | num n => rfl
  | str s => rfl
  | arr xs => rfl

/-- The community helper is the discovery run of the name it resolves. -/
theorem extract_from_submolt_eq (s : Json) (st : DownloadState) :
    extract_from_submolt s st = applyDiscovered "submolt_names" (groupName s).toList st := by
  cases s with
  | obj kvs =>
    simp only [extract_from_submolt, groupName]
    by_cases ht : (Json.obj kvs).truthy <;>
      by_cases hn : (pyOr (Json.getOpt kvs "name") (Json.getOpt kvs "slug")).truthy <;>
        simp [ht, hn, applyDiscovered]
  | null => rfl
  | bool b => rfl
  | num n => rfl
  | str s => rfl
  | arr xs => rfl

mutual

/-- One tolerably shaped comment is traversed without error and contributes
exactly its collected author names, in order. -/
theorem extractComment_eq : ∀ (c : CommentTree) (st : DownloadState),
    extractComment c.toJson st = .ok (applyDiscovered "agent_names" c.agentNames st)
  | .mk a rs rest, st => by
      have hget : Json.getOpt (("author", a) ::
          ("replies", .arr (CommentTree.listToJson rs)) :: rest) "author" = a := by
        simp [Json.getOpt, Json.lookup]
      simp only [CommentTree.toJson, extractComment, hget, extract_from_author_eq,
        CommentTree.agentNames]
      rw [extractRepliesField, if_neg (by decide), extractRepliesField, if_pos rfl]
      rw [applyDiscovered_append]
      cases rs with
      | nil =>
        simp [CommentTree.listToJson, extract_from_comments, Json.truthy,
          CommentTree.agentNamesList, applyDiscovered]
      | cons c cs =>
        rw [extract_from_comments]
        rw [if_neg (by simp [CommentTree.listToJson, Json.truthy])]
        exact extractCommentList_eq (c :: cs) _

/-- A tolerably shaped comment list is traversed without error and
contributes exactly the concatenation of its author names. -/
theorem extractCommentList_eq : ∀ (cs : List CommentTree) (st : DownloadState),
    extractCommentList (CommentTree.listToJson cs) st =
      .ok (applyDiscovered "agent_names" (CommentTree.agentNamesList cs) st)
  | [], st => by
      simp [CommentTree.listToJson, extractCommentList, CommentTree.agentNamesList,
        applyDiscovered]
  | c :: cs, st => by
      rw [CommentTree.listToJson, extractCommentList, extractComment_eq c st, exceptOkBind,
        extractCommentList_eq cs _, CommentTree.agentNamesList, applyDiscovered_append]

end

/-- A tolerably shaped comment array is traversed without error and
contributes exactly the concatenated author names. -/
theorem extract_from_comments_eq (cs : List CommentTree) (st : DownloadState) :
    extract_from_comments (.arr (CommentTree.listToJson cs)) st =
      .ok (applyDiscovered "agent_names" (CommentTree.agentNamesList cs) st) := by
  cases cs with
  | nil =>
    simp [CommentTree.listToJson, extract_from_comments, Json.truthy,
      CommentTree.agentNamesList, applyDiscovered]
  | cons c cs =>
    rw [extract_from_comments, if_neg (by simp [CommentTree.listToJson, Json.truthy])]
    exact extractCommentList_eq (c :: cs) st

/-- A branch on a decidable condition with succeeded results on both sides
is a succeeded branch. -/
theorem iteOk {α : Type} (b : Prop) [Decidable b] (x y : α) :
    (if b then (Except.ok x : Except PyErr α) else .ok y) = .ok (if b then x else y) := by
  by_cases h : b <;> simp [h]

/-- A single discovery does not touch the phases. -/
theorem add_discovered_phases (st : DownloadState) (c : String) (n : Json) :
    (st.add_discovered c n).phases = st.phases := rfl

/-- A single discovery does not touch the extra mapping. -/
theorem add_discovered_extra (st : DownloadState) (c : String) (n : Json) :
    (st.add_discovered c n).extra = st.extra := rfl

/-- Claim C8 as stated: the extractor returns without raising on every
JSON-object document, whatever the shapes of its fields. -/
def claimC8Stated : Prop :=
  ∀ (kvs : List (String × Json)) (st : DownloadState),
    ∃ st₂, extract_names_from_response (.obj kvs) st = .ok st₂

/-- C8, counterexample: the document whose `post` field is null — a shape
the claim explicitly includes — makes the extractor raise an
`AttributeError` (`post.get` on `None`), so the never-raising clause fails. -/
theorem extract_names_null_post_cex : ¬ claimC8Stated := by
  intro h
  obtain ⟨st₂, h₂⟩ := h [("post", Json.null)] .empty
  have hco : extract_names_from_response (.obj [("post", Json.null)]) .empty =
      .error .attributeError := rfl
  rw [hco] at h₂
  exact Except.noConfusion h₂

set_option maxHeartbeats 2000000 in
/-- C8, amended: on every document of tolerable shape — the `post` field,
when present, an object with arbitrary author and community values and
arbitrary further fields; comments a forest of comment objects whose
authors are arbitrary values and whose replies nest to any depth; the
`agent` field, when present, an object; the top-level `submolt` arbitrary —
the extractor returns without raising, and the final discovered sets extend
the initial ones by exactly the collected names in traversal order: for
authors the truthy `name` falling back to `username`, for communities the
truthy `name` falling back to `slug`, and for the top-level agent profile
its truthy `name` only (the code has no `username` fallback on that
branch); phases and extra are untouched. -/
theorem extract_names_shape_spec (d : MoltDoc) (st : DownloadState) :
    ∃ st₂, extract_names_from_response d.toJson st = .ok st₂ ∧
      st₂.get_discovered "agent_names" =
        d.agentNames.foldl pySetInsert (st.get_discovered "agent_names") ∧
      st₂.get_discovered "submolt_names" =
        d.submoltNames.foldl pySetInsert (st.get_discovered "submolt_names") ∧
      st₂.phases = st.phases ∧
      st₂.extra = st.extra := by
  obtain ⟨post, comments, agent, submolt⟩ := d
  rcases post with _ | ⟨a, s, rest⟩ <;> rcases agent with _ | akvs <;>
    rcases submolt with _ | sv <;>
      simp [MoltDoc.toJson, MoltDoc.agentNames, MoltDoc.submoltNames,
        extract_names_from_response, pyDictGet, Json.lookup, Json.getOpt, List.find?,
        exceptOkBind, exceptPureEq, extract_from_author_eq, extract_from_submolt_eq,
        extract_from_comments_eq, iteOk, Json.truthy, authorName, groupName]
  all_goals try refine ⟨_, rfl, ?_⟩
  all_goals repeat' apply And.intro
  all_goals
    first
      | (split_ifs <;>
          simp [*, applyDiscovered_get_self, applyDiscovered_get_other,
            get_discovered_add_self, get_discovered_add_other, applyDiscovered_phases,
            applyDiscovered_extra, add_discovered_phases, add_discovered_extra,
            List.foldl_append])
      | simp [applyDiscovered_get_self, applyDiscovered_get_other,
          get_discovered_add_self, get_discovered_add_other, applyDiscovered_phases,
          applyDiscovered_extra, add_discovered_phases, add_discovered_extra,
          List.foldl_append]

/-- A concrete tolerably shaped document exercising every branch: a post
with author and community, a two-level reply chain, an agent profile and a
top-level community. -/
def sampleDoc : MoltDoc :=
  ⟨some (.obj [("name", .str "alice")], .obj [("slug", .str "general")], [("id", .str "p1")]),
   [CommentTree.mk (.obj [("username", .str "bob")])
      [CommentTree.mk (.obj [("name", .str "charlie")]) [] []] []],
   some [("name", .str "dave")],
   some (.obj [("name", .str "tech")])⟩

/-- C8 witness: the amended theorem evaluated at the concrete document and
the empty state. -/
theorem extract_names_shape_spec_witness :
    ∃ st₂, extract_names_from_response sampleDoc.toJson .empty = .ok st₂ ∧
      st₂.get_discovered "agent_names" =
        sampleDoc.agentNames.foldl pySetInsert
          (DownloadState.empty.get_discovered "agent_names") ∧
      st₂.get_discovered "submolt_names" =
        sampleDoc.submoltNames.foldl pySetInsert
          (DownloadState.empty.get_discovered "submolt_names") ∧
      st₂.phases = DownloadState.empty.phases ∧
      st₂.extra = DownloadState.empty.extra :=
  extract_names_shape_spec sampleDoc .empty

/-- Whether a value is a JSON object (a Python dict). -/
def Json.isObj : Json → Bool
  | .obj _ => true
  | _ => false

/-- Whether a value is a JSON number. -/
def Json.isNum : Json → Bool
  | .num _ => true
  | _ => false

/-- Python `key in j` for an arbitrary key value. -/
def pyContainsVal (key : Json) (j : Json) : Except PyErr Bool :=
  match j with
  | .obj kvs => .ok (kvs.any (fun p => Json.str p.1 = key))
  | .arr xs => .ok (xs.any (fun x => x = key))
  | .str s =>
      match key with
      | .str k => .ok (strContainsSub s k)
      | _ => .error .typeError
  | _ => .error .typeError

/-- Python subscript `d[key]` on a parsed JSON dict: present string keys
succeed, absent ones raise `KeyError` (modelled in `PyErr`); non-dict
receivers and non-string keys (never present in string-keyed parsed dicts)
raise. -/
def pySubscript (j key : Json) : Except PyErr Json :=
  match j, key with
  | .obj kvs, .str k =>
      match Json.lookup kvs k with
      | some v => .ok v
      | none => .error .keyError
  | _, _ => .error .typeError

/-- Python `a > b` on JSON-like values: numeric and string comparisons
succeed, mixed kinds raise `TypeError`. -/
def pyGt (a b : Json) : Except PyErr Bool :=
  match a, b with
  | .num m, .num n => .ok (n < m)
  | .str s, .str t => .ok (t < s)
  | _, _ => .error .typeError

/-- The loop of `moltbook.identify_posts_needing_refresh` over the feed
posts, with the completed set and the tracked-counts dict already read. -/
def identifyGo (done : List Json) (counts : Json) :
    List Json → Except PyErr (List Json × List Json)
  | [] => .ok ([], [])
  | post :: rest => do
      let pid ← pyDictGet post "id" .null
      if ¬ pid.truthy then identifyGo done counts rest
      else do
        let apiCount ← pyDictGet post "comment_count" (.num 0)
        if pid ∉ done then do
          let r ← identifyGo done counts rest
          .ok (post :: r.1, r.2)
        else do
          let hasCount ← pyContainsVal pid counts
          if ¬ hasCount then do
            let r ← identifyGo done counts rest
            .ok (r.1, post :: r.2)
          else do
            let tracked ← pySubscript counts pid
            let gt ← pyGt apiCount tracked
            if gt then do
              let r ← identifyGo done counts rest
              .ok (r.1, post :: r.2)
            else identifyGo done counts rest

/-- Embedding of `moltbook.identify_posts_needing_refresh`. -/
def identify_posts_needing_refresh (all_posts : List Json) (st : DownloadState) :
    Except PyErr (List Json × List Json) := do
  let counts ← pyDictGet st.extra "post_comment_counts" (.obj [])
  identifyGo (st.get_done "posts") counts all_posts

/-- The identifier a feed post carries (`post.get("id")`). -/
def postIdOf (post : Json) : Json :=
  match post with
  | .obj kvs => Json.getOpt kvs "id"
  | _ => .null

/-- The declared comment count a feed post carries
(`post.get("comment_count", 0)`). -/
def apiCountOf (post : Json) : Json :=
  match post with
  | .obj kvs => (Json.lookup kvs "comment_count").getD (.num 0)
  | _ => .num 0

/-- Whether the tracked-counts dict has an entry for the identifier. -/
def countsHasKey (ckvs : List (String × Json)) (pid : Json) : Bool :=
  ckvs.any (fun p => Json.str p.1 = pid)

/-- The tracked count recorded for the identifier. -/
def trackedCount (ckvs : List (String × Json)) (pid : Json) : Json :=
  match pid with
  | .str k => (Json.lookup ckvs k).getD .null
  | _ => .null

/-- Strict numeric comparison of JSON numbers. -/
def numGtB (a b : Json) : Bool :=
  match a, b with
  | .num m, .num n => n < m
  | _, _ => false

/-- Membership of a feed post in the new-posts output. -/
def newPostPred (done : List Json) (p : Json) : Bool :=
  (postIdOf p).truthy && ! decide (postIdOf p ∈ done)

/-- Membership of a feed post in the refresh output. -/
def refreshPred (done : List Json) (ckvs : List (String × Json)) (p : Json) : Bool :=
  (postIdOf p).truthy && decide (postIdOf p ∈ done) &&
    (! countsHasKey ckvs (postIdOf p) ||
      numGtB (apiCountOf p) (trackedCount ckvs (postIdOf p)))

/-- A positive key test on the tracked-counts dict pins the identifier down
to a bound string key. -/
theorem countsHasKey_str {ckvs : List (String × Json)} {pid : Json}
    (h : countsHasKey ckvs pid = true) :
    ∃ k v, pid = .str k ∧ Json.lookup ckvs k = some v := by
  induction ckvs with
  | nil => simp [countsHasKey] at h
  | cons p rest ih =>
    rw [countsHasKey, List.any_cons, Bool.or_eq_true] at h
    rcases h with h | h
    · have hp : pid = .str p.1 := by
        have := of_decide_eq_true h
        exact this.symm
      refine ⟨p.1, p.2, hp, ?_⟩
      rw [Json.lookup, List.find?_cons_of_pos _ (by simp)]
      rfl
    · obtain ⟨k, v, hpid, hlk⟩ := ih h
      by_cases hk : p.1 = k
      · subst hk
        exact ⟨p.1, p.2, hpid, by rw [Json.lookup, List.find?_cons_of_pos _ (by simp)]; rfl⟩
      · refine ⟨k, v, hpid, ?_⟩
        rw [Json.lookup, List.find?_cons_of_neg _ (by simp [hk])]
        exact hlk

/-- The Boolean shape invariant under which the refresh categorization runs
without raising: every feed post is a dict, and whenever the growth
comparison is reached both compared counts are numbers. -/
def identifyShapeOk (done : List Json) (ckvs : List (String × Json))
    (posts : List Json) : Bool :=
  posts.all (fun p => p.isObj &&
    (!((postIdOf p).truthy && decide (postIdOf p ∈ done) && countsHasKey ckvs (postIdOf p)) ||
      ((apiCountOf p).isNum && (trackedCount ckvs (postIdOf p)).isNum)))

/-- The categorization loop computes exactly the two filters. -/
theorem identifyGo_spec (done : List Json) (ckvs : List (String × Json)) :
    ∀ posts, identifyShapeOk done ckvs posts = true →
      identifyGo done (.obj ckvs) posts =
        .ok (posts.filter (newPostPred done), posts.filter (refreshPred done ckvs)) := by
  intro posts
  induction posts with
  | nil => intro _; rfl
  | cons post rest ih =>
    intro h
    rw [identifyShapeOk, List.all_cons, Bool.and_eq_true] at h
    obtain ⟨hhead, htail⟩ := h
    have hrest := ih htail
    rw [Bool.and_eq_true] at hhead
    obtain ⟨hobj, hshape⟩ := hhead
    cases post with
    | null => simp [Json.isObj] at hobj
    | bool b => simp [Json.isObj] at hobj
    | num n => simp [Json.isObj] at hobj
    | str s => simp [Json.isObj] at hobj
    | arr xs => simp [Json.isObj] at hobj
    | obj kvs =>
      have hid : pyDictGet (.obj kvs) "id" .null = .ok (postIdOf (.obj kvs)) := rfl
      have hac : pyDictGet (.obj kvs) "comment_count" (.num 0) =
          .ok (apiCountOf (.obj kvs)) := rfl
      have hck : pyContainsVal (postIdOf (.obj kvs)) (.obj ckvs) =
          .ok (countsHasKey ckvs (postIdOf (.obj kvs))) := rfl
      by_cases ht : (postIdOf (.obj kvs)).truthy = true
      · by_cases hd : postIdOf (.obj kvs) ∈ done
        · by_cases hc : countsHasKey ckvs (postIdOf (.obj kvs)) = true
          · obtain ⟨k, v, hpid, hlk⟩ := countsHasKey_str hc
            have hsub : pySubscript (.obj ckvs) (postIdOf (.obj kvs)) = .ok v := by
              rw [hpid, pySubscript, hlk]
            have htr : trackedCount ckvs (postIdOf (.obj kvs)) = v := by
              rw [hpid, trackedCount, hlk]
              rfl
            rw [ht, decide_eq_true hd, hc] at hshape
            simp only [Bool.and_true, Bool.true_and, Bool.not_true, Bool.false_or,
              Bool.and_eq_true] at hshape
            obtain ⟨hm, hn⟩ := hshape
            obtain ⟨m, hm'⟩ : ∃ m, apiCountOf (.obj kvs) = .num m := by
              cases hma : apiCountOf (.obj kvs) <;> simp [hma, Json.isNum] at hm ⊢
            obtain ⟨n, hn'⟩ : ∃ n, trackedCount ckvs (postIdOf (.obj kvs)) = .num n := by
              cases hna : trackedCount ckvs (postIdOf (.obj kvs)) <;>
                simp [hna, Json.isNum] at hn ⊢
            have hgtrun : pyGt (apiCountOf (.obj kvs)) v = .ok
                (numGtB (apiCountOf (.obj kvs)) (trackedCount ckvs (postIdOf (.obj kvs)))) := by
              rw [hm', ← htr, hn']
              rfl
            by_cases hgt : numGtB (apiCountOf (.obj kvs))
                (trackedCount ckvs (postIdOf (.obj kvs))) = true
            · simp [identifyGo, hid, hac, hck, hsub, hgtrun, exceptOkBind, ht, hd, hc, hgt,
                hrest, List.filter_cons, newPostPred, refreshPred]
            · simp [identifyGo, hid, hac, hck, hsub, hgtrun, exceptOkBind, ht, hd, hc, hgt,
                hrest, List.filter_cons, newPostPred, refreshPred]
          · simp [identifyGo, hid, hac, hck, exceptOkBind, ht, hd, hc, hrest,
              List.filter_cons, newPostPred, refreshPred]
        · simp [identifyGo, hid, hac, exceptOkBind, ht, hd, hrest, List.filter_cons,
            newPostPred, refreshPred]
      · simp [identifyGo, hid, exceptOkBind, ht, hrest, List.filter_cons, newPostPred,
          refreshPred]

/-- C9: for every feed post list and checkpoint state (of the shape under
which the growth comparison is defined), the categorization returns the two
filters — and hence a post with a (truthy) identifier not yet marked done
goes to the new-posts list, a post already completed with a tracked count
showing no growth goes to neither list, and a post already completed whose
declared comment count exceeds the tracked count goes to the refresh list. -/
theorem identify_posts_needing_refresh_spec (posts : List Json) (st : DownloadState)
    (ckvs : List (String × Json))
    (hextra : pyDictGet st.extra "post_comment_counts" (.obj []) = .ok (.obj ckvs))
    (hshape : identifyShapeOk (st.get_done "posts") ckvs posts = true) :
    identify_posts_needing_refresh posts st =
      .ok (posts.filter (newPostPred (st.get_done "posts")),
           posts.filter (refreshPred (st.get_done "posts") ckvs)) ∧
    (∀ p ∈ posts, (postIdOf p).truthy = true → postIdOf p ∉ st.get_done "posts" →
      p ∈ posts.filter (newPostPred (st.get_done "posts"))) ∧
    (∀ p ∈ posts, (postIdOf p).truthy = true → postIdOf p ∈ st.get_done "posts" →
      countsHasKey ckvs (postIdOf p) = true →
      numGtB (apiCountOf p) (trackedCount ckvs (postIdOf p)) = false →
      p ∉ posts.filter (newPostPred (st.get_done "posts")) ∧
      p ∉ posts.filter (refreshPred (st.get_done "posts") ckvs)) ∧
    (∀ p ∈ posts, (postIdOf p).truthy = true → postIdOf p ∈ st.get_done "posts" →
      countsHasKey ckvs (postIdOf p) = true →
      numGtB (apiCountOf p) (trackedCount ckvs (postIdOf p)) = true →
      p ∈ posts.filter (refreshPred (st.get_done "posts") ckvs)) := by
  refine ⟨?_, ?_, ?_, ?_⟩
  · rw [identify_posts_needing_refresh, hextra, exceptOkBind]
    exact identifyGo_spec (st.get_done "posts") ckvs posts hshape
  · intro p hp ht hd
    rw [List.mem_filter]
    exact ⟨hp, by simp [newPostPred, ht, hd]⟩
  · intro p hp ht hd hc hgt
    constructor
    · rw [List.mem_filter]
      rintro ⟨-, hpred⟩
      simp [newPostPred, ht, hd] at hpred
    · rw [List.mem_filter]
      rintro ⟨-, hpred⟩
      simp [refreshPred, ht, hd, hc, hgt] at hpred
  · intro p hp ht hd hc hgt
    rw [List.mem_filter]
    exact ⟨hp, by simp [refreshPred, ht, hd, hc, hgt]⟩

/-- A concrete feed: a completed post whose comment count grew, a completed
post with no growth, and a new post. -/
def feedSample : List Json :=
  [.obj [("id", .str "p1"), ("comment_count", .num 7)],
   .obj [("id", .str "p2"), ("comment_count", .num 3)],
   .obj [("id", .str "p3")]]

/-- A concrete checkpoint state with two completed posts and their tracked
comment counts. -/
def stateSample : DownloadState :=
  ⟨[("posts", [.str "p1", .str "p2"])], [], .str "",
   .obj [("post_comment_counts", .obj [("p1", .num 5), ("p2", .num 3)])]⟩

/-- C9 witness: the categorization evaluated on the concrete feed — the
grown post is refreshed, the unchanged post is skipped, the unseen post is
new. -/
theorem identify_posts_needing_refresh_spec_witness :
    identify_posts_needing_refresh feedSample stateSample =
      .ok (feedSample.filter (newPostPred (stateSample.get_done "posts")),
           feedSample.filter (refreshPred (stateSample.get_done "posts")
             [("p1", .num 5), ("p2", .num 3)])) :=
  (identify_posts_needing_refresh_spec feedSample stateSample
    [("p1", .num 5), ("p2", .num 3)] rfl (by decide)).1

/-- One character of the timestamp transform
`.replace(":", "-").replace("+", "_").replace(".", "-")`; chained
single-character replacements amount to one per-character map since no
replacement output is a later replacement input. -/
def tsChar (c : Char) : Char :=
  if c = ':' then '-' else if c = '+' then '_' else if c = '.' then '-' else c

/-- The filesystem-safe transform applied to the previous download
timestamp to name the archive file. -/
def safeTimestamp (ts : String) : String := String.mk (ts.data.map tsChar)

/-- Embedding of `moltbook.archive_post_if_changed`.  The posts directory
content is abstracted as what reading `posts_dir/{post_id}.json` finds:
`none` when the file does not exist, `some none` when it exists but is
unreadable or unparseable (caught, treated as unchanged), `some (some ex)`
for a parsed previous document.  The result carries whether an archive
happened and the archive write performed (path and serialized content), if
any; the comparison chain short-circuits exactly like the Python `or`. -/
def archive_post_if_changed (postsDir : String) (existing : Option (Option Json))
    (postId : String) (newData : Json) : Except PyErr (Bool × Option (String × String)) :=
  match existing with
  | none => .ok (false, none)
  | some none => .ok (false, none)
  | some (some ex) => do
      let oldComments ← pyDictGet ex "comments" (.arr [])
      let oldCount ← pyLen oldComments
      let newComments ← pyDictGet newData "comments" (.arr [])
      let newCount ← pyLen newComments
      let oldPost ← pyDictGet ex "post" (.obj [])
      let newPost ← pyDictGet newData "post" (.obj [])
      let changed ←
        if oldCount ≠ newCount then pure true
        else do
          let oldContent ← pyDictGet oldPost "content" .null
          let newContent ← pyDictGet newPost "content" .null
          if ¬ Json.beq oldContent newContent then pure true
          else do
            let oldTitle ← pyDictGet oldPost "title" .null
            let newTitle ← pyDictGet newPost "title" .null
            pure (! Json.beq oldTitle newTitle)
      if changed then do
        let tsJ ← pyDictGet ex "_downloaded_at" (.str "unknown")
        match tsJ with
        | .str ts =>
            .ok (true, some (postsDir ++ "/archive/" ++ postId ++ "/" ++
                   safeTimestamp ts ++ ".json", Json.dumps 2 ex))
        | _ => .error .attributeError
      else .ok (false, none)

/-- C10: the archiver returns `False` with no write when no previous file
exists or the previous file does not parse; for a parsed previous document
of the expected shape it returns `True` exactly when the top-level comment
counts differ or the post `content` or `title` fields differ, and in that
case the single archive write stores the entire previous document under
`posts_dir/archive/{post_id}/` named by the filesystem-safe transform of
the previous document timestamp; otherwise it returns `False` and writes
nothing. -/
theorem archive_post_if_changed_change_spec (postsDir postId : String) (newData : Json) :
    (archive_post_if_changed postsDir none postId newData = .ok (false, none)) ∧
    (archive_post_if_changed postsDir (some none) postId newData = .ok (false, none)) ∧
    (∀ (exKvs newKvs : List (String × Json)) (oldCs newCs : List Json)
       (oldP newP : List (String × Json)) (ts : String),
      newData = .obj newKvs →
      (Json.lookup exKvs "comments").getD (.arr []) = .arr oldCs →
      (Json.lookup newKvs "comments").getD (.arr []) = .arr newCs →
      (Json.lookup exKvs "post").getD (.obj []) = .obj oldP →
      (Json.lookup newKvs "post").getD (.obj []) = .obj newP →
      (Json.lookup exKvs "_downloaded_at").getD (.str "unknown") = .str ts →
      archive_post_if_changed postsDir (some (some (.obj exKvs))) postId newData =
        .ok (if (decide (oldCs.length ≠ newCs.length) ||
                 ! Json.beq (Json.getOpt oldP "content") (Json.getOpt newP "content") ||
                 ! Json.beq (Json.getOpt oldP "title") (Json.getOpt newP "title")) = true
             then (true, some (postsDir ++ "/archive/" ++ postId ++ "/" ++
                    safeTimestamp ts ++ ".json", Json.dumps 2 (.obj exKvs)))
             else (false, none))) := by
  refine ⟨rfl, rfl, ?_⟩
  intro exKvs newKvs oldCs newCs oldP newP ts hnew hoc hnc hop hnp hts
  subst hnew
  have g1 : pyDictGet (.obj exKvs) "comments" (.arr []) = .ok (.arr oldCs) := by
    simp [pyDictGet, hoc]
  have g2 : pyDictGet (.obj newKvs) "comments" (.arr []) = .ok (.arr newCs) := by
    simp [pyDictGet, hnc]
  have g3 : pyDictGet (.obj exKvs) "post" (.obj []) = .ok (.obj oldP) := by
    simp [pyDictGet, hop]
  have g4 : pyDictGet (.obj newKvs) "post" (.obj []) = .ok (.obj newP) := by
    simp [pyDictGet, hnp]
  have g5 : pyDictGet (.obj exKvs) "_downloaded_at" (.str "unknown") = .ok (.str ts) := by
    simp [pyDictGet, hts]
  have g6 : pyDictGet (.obj oldP) "content" .null = .ok (Json.getOpt oldP "content") := rfl
  have g7 : pyDictGet (.obj newP) "content" .null = .ok (Json.getOpt newP "content") := rfl
  have g8 : pyDictGet (.obj oldP) "title" .null = .ok (Json.getOpt oldP "title") := rfl
  have g9 : pyDictGet (.obj newP) "title" .null = .ok (Json.getOpt newP "title") := rfl
  by_cases c1 : oldCs.length = newCs.length
  · by_cases c2 : Json.beq (Json.getOpt oldP "content") (Json.getOpt newP "content") = true
    · by_cases c3 : Json.beq (Json.getOpt oldP "title") (Json.getOpt newP "title") = true
      · simp [archive_post_if_changed, g1, g2, g3, g4, g5, g6, g7, g8, g9, pyLen,
          exceptOkBind, exceptPureEq, c1, c2, c3]
      · simp [archive_post_if_changed, g1, g2, g3, g4, g5, g6, g7, g8, g9, pyLen,
          exceptOkBind, exceptPureEq, c1, c2, c3]
    · simp [archive_post_if_changed, g1, g2, g3, g4, g5, g6, g7, g8, g9, pyLen,
        exceptOkBind, exceptPureEq, c1, c2]
  · simp [archive_post_if_changed, g1, g2, g3, g4, g5, pyLen, exceptOkBind,
      exceptPureEq, c1]

/-- A previously archived post document: one comment, with content, title
and a download timestamp. -/
def archivedPostSample : List (String × Json) :=
  [("post", .obj [("content", .str "hello"), ("title", .str "T")]),
   ("comments", .arr [.obj []]),
   ("_downloaded_at", .str "2025-01-01T00:00:00+00:00")]

/-- A refetched version of the same post whose only comment disappeared. -/
def refetchedPostSample : List (String × Json) :=
  [("post", .obj [("content", .str "hello"), ("title", .str "T")]),
   ("comments", .arr [])]

/-- C10 witness: the comment counts differ, so the previous document is
archived under the sanitized timestamp name. -/
theorem archive_post_if_changed_change_spec_witness :
    archive_post_if_changed "posts" (some (some (.obj archivedPostSample))) "p1"
        (.obj refetchedPostSample) =
      .ok (true, some ("posts/archive/p1/2025-01-01T00-00-00_00-00.json",
             Json.dumps 2 (.obj archivedPostSample))) := by
  rw [(archive_post_if_changed_change_spec "posts" "p1" (.obj refetchedPostSample)).2.2
    archivedPostSample refetchedPostSample [.obj []] []
    [("content", .str "hello"), ("title", .str "T")]
    [("content", .str "hello"), ("title", .str "T")]
    "2025-01-01T00:00:00+00:00" rfl rfl rfl rfl rfl rfl]
  rfl
